import Mathlib

/-
Verification development for the Brain-Services repository.

Shallow embedding of:
  * src/25/server.py  — the weight-vector microservice: snapshot globals,
    `preload_all_data`, `background_reload_data`, `find_prev_candle_trend`,
    `calculate_pure_memory` and the helper functions they use;
  * src/23/weights.py — `generate_binary_matrix`, the weight-code space
    generator.

Modelling conventions:
  * datetimes are modelled as `Int` (seconds since an arbitrary epoch);
    `timedelta(hours=h)` is `3600 * h`, `timedelta(days=d)` is `86400 * d`;
  * Python dicts are association lists `List (key × value)`; `dict.get(k, d)`
    is `lookupD`, `dict[k] = v` is `setKey` (overwrite in place, append at the
    end when the key is new — exactly Python's insertion-order semantics);
  * Python floats are modelled as exact rationals `ℚ`;
  * `str(i)` for an int is `intStr` below, a decimal renderer matching
    Python's output (digits, `-` sign for negatives).
-/

set_option maxHeartbeats 1000000

namespace BrainServices

/-! ### Decimal rendering of integers (embedding of Python `str(int)`) -/

/-- Decimal digit list of a natural number, most significant digit first:
the character sequence Python's `str` produces for a nonnegative int. -/
def digitsOf (n : Nat) : List Char :=
  if n < 10 then [Nat.digitChar n]
  else digitsOf (n / 10) ++ [Nat.digitChar (n % 10)]
termination_by n
decreasing_by
  exact Nat.div_lt_self (by omega) (by omega)

/-- Character sequence of Python's `str` on an arbitrary int. -/
def intChars : Int → List Char
  | .ofNat m => digitsOf m
  | .negSucc m => '-' :: digitsOf (m + 1)

/-- String form of Python's `str` on a nonnegative int. -/
def natStr (n : Nat) : String := ⟨digitsOf n⟩

/-- String form of Python's `str` on an int. -/
def intStr (i : Int) : String := ⟨intChars i⟩

/-! ### Dict primitives (Python dict as insertion-ordered association list) -/

/-- First-match lookup in an association list: the value stored under a key of
a Python dict (`none` when the key is absent). -/
def lookupP {α β : Type} [DecidableEq α] : List (α × β) → α → Option β
  | [], _ => none
  | p :: rest, k => if p.1 = k then some p.2 else lookupP rest k

/-- Embedding of Python's `k in dict`. -/
def hasKey {α β : Type} [DecidableEq α] : List (α × β) → α → Bool
  | [], _ => false
  | p :: rest, k => decide (p.1 = k) || hasKey rest k

/-- Embedding of Python's `dict.get(k, d)`. -/
def lookupD {α β : Type} [DecidableEq α] (m : List (α × β)) (k : α) (d : β) : β :=
  (lookupP m k).getD d

/-- Embedding of Python's `dict[k] = v`: overwrite in place if the key exists
(keeping its position), otherwise append at the end — exactly insertion-order
dict assignment. -/
def setKey {α β : Type} [DecidableEq α] (m : List (α × β)) (k : α) (v : β) :
    List (α × β) :=
  if hasKey m k then m.map (fun p => if p.1 = k then (k, v) else p)
  else m ++ [(k, v)]

/-- Embedding of the `if k not in d: d[k] = [] ; d[k].append(v)` pattern used by
`preload_all_data` for `GLOBAL_CALENDAR` and `GLOBAL_HISTORY`. -/
def appendAt {α β : Type} [DecidableEq α] (m : List (α × List β)) (k : α) (v : β) :
    List (α × List β) :=
  if hasKey m k then m.map (fun p => if p.1 = k then (p.1, p.2 ++ [v]) else p)
  else m ++ [(k, [v])]

/-! ### Data model: occurrences and the global snapshot state

One record per row of `vlad_investing_calendar` as stored in
`GLOBAL_CALENDAR` (`{'EventId': eid, 'Importance': imp, 'event_date': dt}`,
src/25/server.py line 138). -/

structure Occ where
  EventId : Int
  Importance : Int
  event_date : Int
deriving DecidableEq

/-- The module-level globals of src/25/server.py (lines 62-68), excluding
`LAST_RELOAD_TIME` (a timestamp never read by feature computation) and
`GLOBAL_WEIGHT_CODES`' consumers other than `/weights`.
`extremums` maps a table name to the pair (min-set, max-set). -/
structure GlobalState where
  weightCodes : List String
  eventTypes : List (Int × Nat)
  calendar : List (Int × List Occ)
  history : List (Int × List Int)
  rates : List (String × List (Int × ℚ))
  lastCandles : List (String × List (Int × Bool))
  extremums : List (String × (List Int × List Int))
deriving DecidableEq

/-! ### Feature-key rendering (the f-strings of server.py lines 253-254) -/

/-- Character sequence of `f"{eid}_{t}_0" + (f"_{shift}" if t == 1 else "")`. -/
def key0Chars (eid : Int) (t : Nat) (shift : Int) : List Char :=
  intChars eid ++ '_' :: (digitsOf t ++ '_' :: '0' ::
    (if t = 1 then '_' :: intChars shift else []))

/-- Character sequence of `f"{eid}_{t}_1" + (f"_{shift}" if t == 1 else "")`. -/
def key1Chars (eid : Int) (t : Nat) (shift : Int) : List Char :=
  intChars eid ++ '_' :: (digitsOf t ++ '_' :: '1' ::
    (if t = 1 then '_' :: intChars shift else []))

/-- Mode-0 (magnitude) weight-code key for a triple. -/
def key0 (eid : Int) (t : Nat) (shift : Int) : String := ⟨key0Chars eid t shift⟩

/-- Mode-1 (trend-alignment) weight-code key for a triple. -/
def key1 (eid : Int) (t : Nat) (shift : Int) : String := ⟨key1Chars eid t shift⟩

/-! ### server.py helper functions -/

/-- The six rate tables preloaded by `preload_all_data` (lines 141-145). -/
def tableNames : List String :=
  ["brain_rates_eur_usd", "brain_rates_eur_usd_day",
   "brain_rates_btc_usd", "brain_rates_btc_usd_day",
   "brain_rates_eth_usd", "brain_rates_eth_usd_day"]

/-- Embedding of `get_rates_table_name` (lines 72-79). -/
def get_rates_table_name (pair day : Int) : String :=
  (if pair = 1 then "brain_rates_eur_usd"
   else if pair = 3 then "brain_rates_btc_usd"
   else if pair = 4 then "brain_rates_eth_usd"
   else "brain_rates_eur_usd") ++ (if day = 1 then "_day" else "")

/-- Embedding of `get_modification_factor` (lines 82-86). -/
def get_modification_factor (pair : Int) : ℚ :=
  if pair = 1 then 1 / 1000
  else if pair = 3 then 1000
  else if pair = 4 then 100
  else 1

/-- Length in seconds of one granularity unit: `timedelta(hours=1)` when
`day == 0`, `timedelta(days=1)` otherwise — the branch taken at lines
218-224, 234 and 256. -/
def granUnit (day : Int) : Int := if day = 0 then 3600 else 86400

/-- Embedding of `check_dates` (lines 218-224): the 25 timestamps
`target ± {0..12}` granularity units, in ascending offset order. -/
def checkDates (day target : Int) : List Int :=
  (List.range 25).map (fun i => target + granUnit day * ((i : Int) - 12))

/-- Embedding of `GLOBAL_CALENDAR.get(dt, [])`. -/
def calGet (s : GlobalState) (dt : Int) : List Occ := lookupD s.calendar dt []

/-- Embedding of `GLOBAL_HISTORY.get(eid, [])`. -/
def histGet (s : GlobalState) (eid : Int) : List Int := lookupD s.history eid []

/-- Embedding of `GLOBAL_EVENT_TYPES.get(evt_id, 0)`. -/
def typeGet (s : GlobalState) (eid : Int) : Nat := lookupD s.eventTypes eid 0

/-- Embedding of the `events_in_window` loop (lines 226-229): a candidate is
appended when `e['Importance'] != 1 or dt == target_date`. -/
def eventsInWindow (s : GlobalState) (day target : Int) : List Occ :=
  (checkDates day target).flatMap (fun dt =>
    (calGet s dt).filter (fun e => decide (e.Importance ≠ 1) || decide (dt = target)))

/-- Embedding of the shift computation (line 234):
`int(diff.total_seconds() / 3600)` truncates toward zero (`Int.tdiv`), while
`diff.days` floors (`Int.fdiv`), where `diff = target_date - e['event_date']`. -/
def shiftOf (day target occDate : Int) : Int :=
  if day = 0 then Int.tdiv (target - occDate) 3600
  else Int.fdiv (target - occDate) 86400

/-- Embedding of the `needed_events` loop (lines 231-239): each surviving
window candidate is paired with its shift and event type, dropping
`(type0, shift ≠ 0)` and `(type1, |shift| > 12)` combinations. -/
def neededEvents (s : GlobalState) (day target : Int) : List (Occ × Int × Nat) :=
  (eventsInWindow s day target).filterMap (fun e =>
    let shift := shiftOf day target e.event_date
    let evtType := typeGet s e.EventId
    if (evtType = 0 ∧ shift ≠ 0) ∨ (evtType = 1 ∧ 12 < |shift|) then none
    else some (e, shift, evtType))

/-- Embedding of `valid_dates` (line 250): historical occurrences of the
event strictly before the target. -/
def validDates (s : GlobalState) (target eid : Int) : List Int :=
  (histGet s eid).filter (fun d => decide (d < target))

/-! ### Trend locator (`find_prev_candle_trend`, lines 203-207) -/

/-- Python tuple comparison `(ts, bull) < (ts', bull')` with `False < True`. -/
def pairLtB (a x : Int × Bool) : Bool :=
  decide (a.1 < x.1) || (decide (a.1 = x.1) && (!a.2 && x.2))

/-- The `while lo < hi` loop of CPython's `bisect.bisect_left`; `fuel` bounds
the number of iterations (`hi - lo` always suffices, since the interval
shrinks every round). -/
def bisectLeftAux (l : List (Int × Bool)) (x : Int × Bool) :
    Nat → Nat → Nat → Nat
  | 0, lo, _ => lo
  | fuel + 1, lo, hi =>
    if lo < hi then
      if pairLtB (l.getD ((lo + hi) / 2) (0, false)) x then
        bisectLeftAux l x fuel ((lo + hi) / 2 + 1) hi
      else bisectLeftAux l x fuel lo ((lo + hi) / 2)
    else lo

/-- Embedding of `bisect.bisect_left(candles, x)`. -/
def bisect_left (l : List (Int × Bool)) (x : Int × Bool) : Nat :=
  bisectLeftAux l x l.length 0 l.length

/-- Embedding of `find_prev_candle_trend` (lines 203-207), applied to the
candle list already fetched from `GLOBAL_LAST_CANDLES.get(table, [])`. -/
def find_prev_candle_trend (candles : List (Int × Bool)) (target : Int) :
    Option (Int × Bool) :=
  if candles = [] then none
  else if 0 < bisect_left candles (target, false) then
    some (candles.getD (bisect_left candles (target, false) - 1) (0, false))
  else none

/-! ### Rounding (Python `round(v, 6)`: banker's rounding at 6 decimals) -/

/-- Round-half-to-even to the nearest integer, as Python's `round`. -/
def roundHalfEven (q : ℚ) : ℤ :=
  let f := ⌊q⌋
  let r := q - f
  if r < 1 / 2 then f
  else if 1 / 2 < r then f + 1
  else if Even f then f else f + 1

/-- Embedding of `round(v, 6)`. -/
def round6 (q : ℚ) : ℚ := (roundHalfEven (q * 1000000) : ℚ) / 1000000

/-! ### Weight-vector calculator (`calculate_pure_memory`, lines 209-268)

Date parsing (lines 210-212) is elided: the target is taken as an
already-parsed timestamp, and the `{"error": ...}` branch for unparseable
input is outside every claim considered here. -/

/-- Loop body of lines 249-266: process one `(e, shift, evt_type)` triple,
updating the `result` dict. -/
def processTriple (s : GlobalState) (day target : Int)
    (ramRates : List (Int × ℚ)) (ramExt : List Int × List Int)
    (prevCandle : Option (Int × Bool)) (modification : ℚ)
    (m : List (String × ℚ)) (tr : Occ × Int × Nat) : List (String × ℚ) :=
  let e := tr.1
  let shift := tr.2.1
  let evtType := tr.2.2
  let valid := validDates s target e.EventId
  if valid = [] then m
  else
    let k0 := key0 e.EventId evtType shift
    let k1 := key1 e.EventId evtType shift
    let tDates := valid.map (fun d => d + granUnit day * shift)
    let sumT1 := (tDates.map (fun td => lookupD ramRates td 0)).sum
    let m' := setKey m k0 sumT1
    match prevCandle with
    | none => m'
    | some pc =>
      let extSet := if pc.2 then ramExt.2 else ramExt.1
      let matchCount := (tDates.filter (fun d => decide (d ∈ extSet))).length
      let total := valid.length
      if 0 < total then
        setKey m' k1 ((((matchCount : ℚ) / (total : ℚ)) * 2 - 1) * modification)
      else m'

/-- The `result` dict as built by lines 241-266, before the final
rounding/filtering comprehension (line 268). -/
def calcResultRaw (s : GlobalState) (pair day target : Int) : List (String × ℚ) :=
  let ratesTable := get_rates_table_name pair day
  let modification := get_modification_factor pair
  let needed := neededEvents s day target
  if needed = [] then []
  else
    let ramRates := lookupD s.rates ratesTable []
    let ramExt := lookupD s.extremums ratesTable ([], [])
    let prevCandle := find_prev_candle_trend (lookupD s.lastCandles ratesTable []) target
    needed.foldl (processTriple s day target ramRates ramExt prevCandle modification) []

/-- Embedding of `calculate_pure_memory` (lines 209-268): the final
comprehension `{k: round(v, 6) for k, v in result.items() if v != 0}`. -/
def calculate_pure_memory (s : GlobalState) (pair day target : Int) :
    List (String × ℚ) :=
  ((calcResultRaw s pair day target).filter (fun p => decide (p.2 ≠ 0))).map
    (fun p => (p.1, round6 p.2))

/-! ### Code space generator (src/23/weights.py, `generate_binary_matrix`) -/

/-- One parsed event row (`{'EventId': ..., 'EventType': ...}`) as produced by
`parse_index_table`; `EventType` is the string `'0'` or `'1'` there, but the
generator itself accepts any string. -/
structure EventDef where
  EventId : Int
  EventType : String
deriving DecidableEq

/-- Loop body of `generate_binary_matrix` (lines 90-111) for one event: the
two base codes, plus — only for `etype == '1'` — the 2×25 shifted codes for
hours −12..12 in ascending order. -/
def eventCodes (event : EventDef) : List String :=
  [intStr event.EventId ++ "_" ++ event.EventType ++ "_0",
   intStr event.EventId ++ "_" ++ event.EventType ++ "_1"] ++
  (if event.EventType = "1" then
    (List.range 25).flatMap (fun i =>
      [intStr event.EventId ++ "_" ++ event.EventType ++ "_0_" ++ intStr ((i : Int) - 12),
       intStr event.EventId ++ "_" ++ event.EventType ++ "_1_" ++ intStr ((i : Int) - 12)])
   else [])

/-- Embedding of `generate_binary_matrix` (lines 86-113). -/
def generate_binary_matrix (events : List EventDef) : List String :=
  events.flatMap eventCodes

/-! ### Snapshot rebuild (`preload_all_data`, lines 104-175, and
`background_reload_data`, lines 178-185)

The rebuild mutates the module-level dicts in place. We model it as the
ordered list of its mutation groups; consecutive groups are separated by at
least one `await` (a failure point, and a point where the asyncio event loop
may schedule a concurrent request handler). The data fetched by the rebuild's
queries is a parameter (`Fetched`); per-table row parsing and SQL extremum
queries are summarized by the already-extracted collections their loops
produce, since every claim treated here concerns the mutation structure, not
row parsing. -/

/-- Data fetched for one rate table: the `{date: t1}` mapping and ordered
`(date, close > open)` candle list built at lines 153-160, and the two
extremum timestamp sets fetched at lines 162-172. -/
structure TableFetch where
  rates : List (Int × ℚ)
  lastCandles : List (Int × Bool)
  extMin : List Int
  extMax : List Int
deriving DecidableEq

/-- Empty table payload. -/
def emptyTableFetch : TableFetch := ⟨[], [], [], []⟩

/-- Everything one rebuild fetches from the two databases. -/
structure Fetched where
  weightCodes : List String
  eventTypeRows : List (Int × Option Int)
  calendarRows : List (Int × Int × Int)
  tableData : List (String × TableFetch)
deriving DecidableEq

/-- Lines 115-120: `GLOBAL_EVENT_TYPES[eid] = 1 if cnt > 1 else 0`, with
`cnt = r['occurrence_count'] or 0` (NULL → 0). -/
def buildEventTypes (rows : List (Int × Option Int)) : List (Int × Nat) :=
  rows.foldl (fun m r => setKey m r.1 (if 1 < r.2.getD 0 then 1 else 0)) []

/-- Lines 129-135: `GLOBAL_HISTORY[eid].append(dt)` grouping, with rows as
`(event_id, occurrence_time_utc, importance)`. -/
def buildHistory (rows : List (Int × Int × Int)) : List (Int × List Int) :=
  rows.foldl (fun h r => appendAt h r.1 r.2.1) []

/-- Lines 136-138: `GLOBAL_CALENDAR[dt].append({'EventId': eid,
'Importance': imp, 'event_date': dt})` grouping. -/
def buildCalendar (rows : List (Int × Int × Int)) : List (Int × List Occ) :=
  rows.foldl (fun c r => appendAt c r.2.1 ⟨r.1, r.2.2, r.2.1⟩) []

/-- Mutation group after the weight-codes query (lines 111-112). -/
def stepWeightCodes (f : Fetched) (s : GlobalState) : GlobalState :=
  { s with weightCodes := f.weightCodes }

/-- Mutation group after the event-index query (lines 115-120): clear and
refill `GLOBAL_EVENT_TYPES`. -/
def stepEventTypes (f : Fetched) (s : GlobalState) : GlobalState :=
  { s with eventTypes := buildEventTypes f.eventTypeRows }

/-- Mutation group after the calendar query (lines 123-138): clear and refill
`GLOBAL_CALENDAR` and `GLOBAL_HISTORY` together, with no `await` in between. -/
def stepCalendarHistory (f : Fetched) (s : GlobalState) : GlobalState :=
  { s with calendar := buildCalendar f.calendarRows,
           history := buildHistory f.calendarRows }

/-- Lines 148-150: reset one table's three entries to empty before its
queries run. -/
def stepClearTable (name : String) (s : GlobalState) : GlobalState :=
  { s with rates := setKey s.rates name [],
           lastCandles := setKey s.lastCandles name [],
           extremums := setKey s.extremums name ([], []) }

/-- Lines 153-160: fill one table's rates and candle list from the fetched
rows (one mutation group, no `await` inside the fill loop). -/
def stepFillTable (f : Fetched) (name : String) (s : GlobalState) : GlobalState :=
  { s with rates := setKey s.rates name (lookupD f.tableData name emptyTableFetch).rates,
           lastCandles :=
             setKey s.lastCandles name (lookupD f.tableData name emptyTableFetch).lastCandles }

/-- Lines 162-172, `typ = 'min'` iteration: `GLOBAL_EXTREMUMS[table]['min'] = ...`. -/
def stepExtMin (f : Fetched) (name : String) (s : GlobalState) : GlobalState :=
  let pairNew := ((lookupD f.tableData name emptyTableFetch).extMin,
    (lookupD s.extremums name ([], [])).2)
  { s with extremums := setKey s.extremums name pairNew }

/-- Lines 162-172, `typ = 'max'` iteration: `GLOBAL_EXTREMUMS[table]['max'] = ...`. -/
def stepExtMax (f : Fetched) (name : String) (s : GlobalState) : GlobalState :=
  let pairNew := ((lookupD s.extremums name ([], [])).1,
    (lookupD f.tableData name emptyTableFetch).extMax)
  { s with extremums := setKey s.extremums name pairNew }

/-- The four mutation groups of one iteration of the per-table loop
(lines 147-172). -/
def tableSteps (f : Fetched) (name : String) : List (GlobalState → GlobalState) :=
  [stepClearTable name, stepFillTable f name, stepExtMin f name, stepExtMax f name]

/-- All mutation groups of one `preload_all_data` run, in program order. -/
def preloadSteps (f : Fetched) : List (GlobalState → GlobalState) :=
  [stepWeightCodes f, stepEventTypes f, stepCalendarHistory f] ++
    tableNames.flatMap (tableSteps f)

/-- State left behind by a rebuild that performed its first `k` mutation
groups and then raised (or, for a reader, the state visible at the `await`
suspension point after the `k`-th group). -/
def preloadUpTo (f : Fetched) (k : Nat) (s : GlobalState) : GlobalState :=
  ((preloadSteps f).take k).foldl (fun s σ => σ s) s

/-- Embedding of a completed `preload_all_data` run (lines 104-175). -/
def preload_all_data (f : Fetched) (s : GlobalState) : GlobalState :=
  (preloadSteps f).foldl (fun s σ => σ s) s

/-- One loop iteration of `background_reload_data` (lines 178-185): an attempt
is a fetched payload plus the number of mutation groups completed before a
failure (an attempt with `k ≥ 27` is a success); the `try/except` swallows the
failure either way. -/
def applyAttempt (s : GlobalState) (a : Fetched × Nat) : GlobalState :=
  preloadUpTo a.1 a.2 s

/-- Embedding of `background_reload_data` run for a finite schedule of
attempts: the loop body catches every exception and continues. -/
def background_reload_data (attempts : List (Fetched × Nat)) (s : GlobalState) :
    GlobalState :=
  attempts.foldl applyAttempt s

/-- Equality of everything a feature-computation request can observe: the four
global dicts read directly, and the three per-table dicts at every table name
a request can select (`get_rates_table_name` always returns one of the six). -/
def observablesEq (s s' : GlobalState) : Prop :=
  s.weightCodes = s'.weightCodes ∧ s.eventTypes = s'.eventTypes ∧
  s.calendar = s'.calendar ∧ s.history = s'.history ∧
  ∀ name ∈ tableNames,
    lookupD s.rates name [] = lookupD s'.rates name [] ∧
    lookupD s.lastCandles name [] = lookupD s'.lastCandles name [] ∧
    lookupD s.extremums name ([], []) = lookupD s'.extremums name ([], [])

/-! ### The result dict as a sequence of key assignments -/

/-- Fold a list of dict assignments over a starting dict. -/
def writesFoldl (ws : List (String × ℚ)) (m : List (String × ℚ)) : List (String × ℚ) :=
  ws.foldl (fun m kv => setKey m kv.1 kv.2) m

/-! ### Per-triple projections of `calculate_pure_memory`'s context -/

/-- `ram_rates = GLOBAL_RATES.get(rates_table, {})` (line 244). -/
def ramRatesOf (s : GlobalState) (pair day : Int) : List (Int × ℚ) :=
  lookupD s.rates (get_rates_table_name pair day) []

/-- `ram_ext = GLOBAL_EXTREMUMS.get(rates_table, {'min': set(), 'max': set()})`
(line 245), as the pair (min, max). -/
def ramExtOf (s : GlobalState) (pair day : Int) : List Int × List Int :=
  lookupD s.extremums (get_rates_table_name pair day) ([], [])

/-- `prev_candle = find_prev_candle_trend(rates_table, target_date)` (line 246). -/
def prevCandleOf (s : GlobalState) (pair day target : Int) : Option (Int × Bool) :=
  find_prev_candle_trend (lookupD s.lastCandles (get_rates_table_name pair day) []) target

/-- Value stored under the mode-0 key of a triple (lines 256-258): the sum,
over every historical occurrence `d` strictly before the target, of the rate
at `d + shift` granularity units, an absent rate contributing 0. -/
def mode0Val (s : GlobalState) (day target : Int) (rr : List (Int × ℚ))
    (eid shift : Int) : ℚ :=
  ((((validDates s target eid).map (fun d => d + granUnit day * shift)).map
    (fun td => lookupD rr td 0))).sum

/-- Value stored under the mode-1 key of a triple (lines 260-266):
`((matches / total) * 2 - 1) * modification` for the extremum set selected by
the previous candle's direction. -/
def mode1Val (s : GlobalState) (day target : Int) (re : List Int × List Int)
    (mo : ℚ) (bull : Bool) (eid shift : Int) : ℚ :=
  let tDates := (validDates s target eid).map (fun d => d + granUnit day * shift)
  let extSet := if bull then re.2 else re.1
  ((((tDates.filter (fun d => decide (d ∈ extSet))).length : ℚ) /
      ((validDates s target eid).length : ℚ)) * 2 - 1) * mo

/-- The ordered list of dict assignments the loop body performs for one
triple. -/
def tripleWrites (s : GlobalState) (day target : Int)
    (ramRates : List (Int × ℚ)) (ramExt : List Int × List Int)
    (prevCandle : Option (Int × Bool)) (modification : ℚ)
    (tr : Occ × Int × Nat) : List (String × ℚ) :=
  let e := tr.1
  let shift := tr.2.1
  let evtType := tr.2.2
  let valid := validDates s target e.EventId
  if valid = [] then []
  else
    let tDates := valid.map (fun d => d + granUnit day * shift)
    let w0 : List (String × ℚ) :=
      [(key0 e.EventId evtType shift, (tDates.map (fun td => lookupD ramRates td 0)).sum)]
    match prevCandle with
    | none => w0
    | some pc =>
      let extSet := if pc.2 then ramExt.2 else ramExt.1
      let matchCount := (tDates.filter (fun d => decide (d ∈ extSet))).length
      if 0 < valid.length then
        w0 ++ [(key1 e.EventId evtType shift,
          (((matchCount : ℚ) / (valid.length : ℚ)) * 2 - 1) * modification)]
      else w0

/-- All dict assignments one `calculate_pure_memory` run performs, in order. -/
def allWrites (s : GlobalState) (pair day target : Int) : List (String × ℚ) :=
  (neededEvents s day target).flatMap
    (tripleWrites s day target (ramRatesOf s pair day) (ramExtOf s pair day)
      (prevCandleOf s pair day target) (get_modification_factor pair))

/-! ### Concrete snapshot states for counterexamples and witnesses -/

/-- Snapshot with a single low-importance occurrence one hour after the
target used below (importance 2, not the top tier 1). -/
def sC1 : GlobalState :=
  { weightCodes := [], eventTypes := [], calendar := [(3600, [⟨5, 2, 3600⟩])],
    history := [], rates := [], lastCandles := [], extremums := [] }

/-- Snapshot producing a raw feature value of 1/2500000 (Python float 4e-7),
which is nonzero but rounds to 0 at 6 decimals. -/
def sC2 : GlobalState :=
  { weightCodes := [], eventTypes := [], calendar := [(0, [⟨7, 1, 0⟩])],
    history := [(7, [-3600])],
    rates := [("brain_rates_eur_usd", [(-3600, 1 / 2500000)])],
    lastCandles := [], extremums := [] }

/-- Snapshot with a type-1 event (id 7) occurring at the target and one hour
after it, two historical occurrences, one rate and one prior candle. -/
def sW : GlobalState :=
  { weightCodes := [], eventTypes := [(7, 1)],
    calendar := [(0, [⟨7, 5, 0⟩]), (3600, [⟨7, 5, 3600⟩])],
    history := [(7, [-3600, -7200])],
    rates := [("brain_rates_eur_usd", [(-3600, 2)])],
    lastCandles := [("brain_rates_eur_usd", [(-7200, true)])],
    extremums := [("brain_rates_eur_usd", ([], [-3600]))] }

/-- Fetched payload used by the C3 counterexample. -/
def fC3 : Fetched :=
  { weightCodes := ["x"], eventTypeRows := [], calendarRows := [], tableData := [] }

/-- Pre-rebuild state used by the C3 counterexample. -/
def sC3 : GlobalState :=
  { weightCodes := [], eventTypes := [], calendar := [], history := [],
    rates := [], lastCandles := [], extremums := [] }

/-- Fetched payload used by the C8 counterexample. -/
def fC8 : Fetched :=
  { weightCodes := ["y"], eventTypeRows := [], calendarRows := [(1, 2, 3)],
    tableData := [] }

/-- Pre-rebuild state used by the C8 counterexample. -/
def sC8 : GlobalState :=
  { weightCodes := ["y"], eventTypes := [], calendar := [], history := [],
    rates := [("brain_rates_eur_usd", [(5, 1)])], lastCandles := [],
    extremums := [] }

theorem digitChar_isDigit {d : Nat} (h : d < 10) :
    (Nat.digitChar d).isDigit = true := by
  interval_cases d <;> decide

theorem digitChar_decimal_inj {a b : Nat} (ha : a < 10) (hb : b < 10)
    (h : Nat.digitChar a = Nat.digitChar b) : a = b := by
  interval_cases a <;> interval_cases b <;> simp_all <;> exact absurd h (by decide)

theorem digitsOf_eq_small {n : Nat} (h : n < 10) : digitsOf n = [Nat.digitChar n] := by
  rw [digitsOf]
  simp [h]

theorem digitsOf_eq_large {n : Nat} (h : ¬ n < 10) :
    digitsOf n = digitsOf (n / 10) ++ [Nat.digitChar (n % 10)] := by
  rw [digitsOf]
  simp [h]

theorem digitsOf_ne_nil (n : Nat) : digitsOf n ≠ [] := by
  rw [digitsOf]
  split
  · simp
  · simp

theorem mem_digitsOf_isDigit {n : Nat} {c : Char} (h : c ∈ digitsOf n) :
    c.isDigit = true := by
  induction n using Nat.strong_induction_on with
  | _ n ih =>
    rw [digitsOf] at h
    split at h
    · rcases List.mem_singleton.mp h with rfl
      exact digitChar_isDigit (by omega)
    · rcases List.mem_append.mp h with h' | h'
      · exact ih (n / 10) (Nat.div_lt_self (by omega) (by omega)) h'
      · rcases List.mem_singleton.mp h' with rfl
        exact digitChar_isDigit (Nat.mod_lt _ (by omega))

theorem uscore_not_mem_digitsOf (n : Nat) : '_' ∉ digitsOf n := by
  intro h
  have := mem_digitsOf_isDigit h
  simp at this

theorem dash_not_mem_digitsOf (n : Nat) : '-' ∉ digitsOf n := by
  intro h
  have := mem_digitsOf_isDigit h
  simp at this

theorem digitsOf_length_pos (n : Nat) : 0 < (digitsOf n).length := by
  cases hd : digitsOf n with
  | nil => exact absurd hd (digitsOf_ne_nil n)
  | cons a l => simp

theorem digitsOf_inj : ∀ {m n : Nat}, digitsOf m = digitsOf n → m = n := by
  intro m
  induction m using Nat.strong_induction_on with
  | _ m ih =>
    intro n h
    by_cases hm : m < 10 <;> by_cases hn : n < 10
    · rw [digitsOf_eq_small hm, digitsOf_eq_small hn] at h
      simp only [List.cons.injEq] at h
      exact digitChar_decimal_inj hm hn h.1
    · exfalso
      rw [digitsOf_eq_small hm, digitsOf_eq_large hn] at h
      have h1 := congrArg List.length h
      simp only [List.length_singleton, List.length_append, List.length_cons,
        List.length_nil] at h1
      have := digitsOf_length_pos (n / 10)
      omega
    · exfalso
      rw [digitsOf_eq_large hm, digitsOf_eq_small hn] at h
      have h1 := congrArg List.length h
      simp only [List.length_singleton, List.length_append, List.length_cons,
        List.length_nil] at h1
      have := digitsOf_length_pos (m / 10)
      omega
    · rw [digitsOf_eq_large hm, digitsOf_eq_large hn] at h
      have h2 : Nat.digitChar (m % 10) = Nat.digitChar (n % 10) ∧
          digitsOf (m / 10) = digitsOf (n / 10) := by
        have hr := congrArg List.reverse h
        simp only [List.reverse_append, List.reverse_cons, List.reverse_nil,
          List.nil_append, List.singleton_append, List.cons.injEq] at hr
        exact ⟨hr.1, by have := congrArg List.reverse hr.2; simpa using this⟩
      have hdiv : m / 10 = n / 10 :=
        ih (m / 10) (Nat.div_lt_self (by omega) (by omega)) h2.2
      have hmod : m % 10 = n % 10 :=
        digitChar_decimal_inj (Nat.mod_lt _ (by omega)) (Nat.mod_lt _ (by omega)) h2.1
      omega

theorem intChars_inj : ∀ {i j : Int}, intChars i = intChars j → i = j := by
  intro i j h
  cases i with
  | ofNat m =>
    cases j with
    | ofNat n => exact congrArg Int.ofNat (digitsOf_inj (by simpa [intChars] using h))
    | negSucc n =>
      exfalso
      have : '-' ∈ digitsOf m := by
        simp only [intChars] at h
        rw [h]
        simp
      exact dash_not_mem_digitsOf m this
  | negSucc m =>
    cases j with
    | ofNat n =>
      exfalso
      have : '-' ∈ digitsOf n := by
        simp only [intChars] at h
        rw [← h]
        simp
      exact dash_not_mem_digitsOf n this
    | negSucc n =>
      simp only [intChars, List.cons.injEq] at h
      have hmn : m = n := by have := digitsOf_inj h.2; omega
      exact congrArg Int.negSucc hmn

theorem uscore_not_mem_intChars (i : Int) : '_' ∉ intChars i := by
  cases i with
  | ofNat m => exact uscore_not_mem_digitsOf m
  | negSucc m =>
    intro h
    rcases List.mem_cons.mp h with h' | h'
    · exact absurd h' (by decide)
    · exact uscore_not_mem_digitsOf _ h'

/-- Splitting a character list at its first underscore is unambiguous. -/
theorem split_first_uscore :
    ∀ (l₁ : List Char) {l₂ r₁ r₂ : List Char}, '_' ∉ l₁ → '_' ∉ l₂ →
      l₁ ++ '_' :: r₁ = l₂ ++ '_' :: r₂ → l₁ = l₂ ∧ r₁ = r₂ := by
  intro l₁
  induction l₁ with
  | nil =>
    intro l₂ r₁ r₂ _ h₂ h
    cases l₂ with
    | nil => simpa using h
    | cons c l =>
      exfalso
      simp only [List.nil_append, List.cons_append, List.cons.injEq] at h
      exact h₂ (h.1 ▸ List.mem_cons_self c l)
  | cons c l ih =>
    intro l₂ r₁ r₂ h₁ h₂ h
    cases l₂ with
    | nil =>
      exfalso
      simp only [List.nil_append, List.cons_append, List.cons.injEq] at h
      exact h₁ (h.1 ▸ List.mem_cons_self c l)
    | cons d l' =>
      simp only [List.cons_append, List.cons.injEq] at h
      obtain ⟨rfl, h'⟩ := h
      have := ih (fun hm => h₁ (List.mem_cons_of_mem _ hm))
        (fun hm => h₂ (List.mem_cons_of_mem _ hm)) h'
      exact ⟨by rw [this.1], this.2⟩

theorem hasKey_iff {α β : Type} [DecidableEq α] (m : List (α × β)) (k : α) :
    hasKey m k = true ↔ ∃ p ∈ m, p.1 = k := by
  induction m with
  | nil => simp [hasKey]
  | cons p rest ih => simp [hasKey, ih]

theorem lookupP_overwrite_self {α β : Type} [DecidableEq α] (k : α) (v : β) :
    ∀ (m : List (α × β)), hasKey m k = true →
      lookupP (m.map (fun p => if p.1 = k then (k, v) else p)) k = some v := by
  intro m
  induction m with
  | nil => simp [hasKey]
  | cons p rest ih =>
    intro hany
    by_cases hp : p.1 = k
    · simp [lookupP, hp]
    · rw [hasKey] at hany
      simp only [hp] at hany
      simp only [List.map_cons, hp, if_false]
      rw [lookupP]
      simp only [hp, if_false]
      exact ih (by simpa using hany)

theorem lookupP_append_self {α β : Type} [DecidableEq α] (k : α) (v : β) :
    ∀ (m : List (α × β)), hasKey m k = false →
      lookupP (m ++ [(k, v)]) k = some v := by
  intro m
  induction m with
  | nil => simp [lookupP]
  | cons p rest ih =>
    intro hany
    rw [hasKey] at hany
    simp only [Bool.or_eq_false_iff, decide_eq_false_iff_not] at hany
    rw [List.cons_append, lookupP]
    simp only [hany.1, if_false]
    exact ih hany.2

theorem lookupP_overwrite_ne {α β : Type} [DecidableEq α] (k k' : α) (v : β)
    (hne : k' ≠ k) :
    ∀ (m : List (α × β)),
      lookupP (m.map (fun p => if p.1 = k then (k, v) else p)) k' = lookupP m k' := by
  intro m
  induction m with
  | nil => simp
  | cons p rest ih =>
    rw [List.map_cons, lookupP, lookupP]
    by_cases hp : p.1 = k
    · have h2 : ¬ (k = k') := fun h => hne h.symm
      simp only [hp, if_true]
      simp only [show ((k, v) : α × β).1 = k from rfl, h2, if_false]
      simpa [hp, h2] using ih
    · simp only [hp, if_false]
      by_cases hk' : p.1 = k'
      · simp [hk']
      · simp only [hk', if_false]
        exact ih

theorem lookupP_append_ne {α β : Type} [DecidableEq α] (k k' : α) (v : β)
    (hne : k' ≠ k) :
    ∀ (m : List (α × β)), lookupP (m ++ [(k, v)]) k' = lookupP m k' := by
  intro m
  induction m with
  | nil =>
    rw [List.nil_append, lookupP]
    simp [show ¬ (k = k') from fun h => hne h.symm, lookupP]
  | cons p rest ih =>
    rw [List.cons_append, lookupP, lookupP]
    by_cases hk' : p.1 = k'
    · simp [hk']
    · simp only [hk', if_false]
      exact ih

theorem lookupP_setKey_self {α β : Type} [DecidableEq α]
    (m : List (α × β)) (k : α) (v : β) : lookupP (setKey m k v) k = some v := by
  rw [setKey]
  split
  · exact lookupP_overwrite_self k v m (by assumption)
  · exact lookupP_append_self k v m (by simp_all)

theorem lookupP_setKey_ne {α β : Type} [DecidableEq α]
    (m : List (α × β)) (k k' : α) (v : β) (hne : k' ≠ k) :
    lookupP (setKey m k v) k' = lookupP m k' := by
  rw [setKey]
  split
  · exact lookupP_overwrite_ne k k' v hne m
  · exact lookupP_append_ne k k' v hne m

theorem lookupD_setKey {α β : Type} [DecidableEq α]
    (m : List (α × β)) (k k' : α) (v : β) (d : β) :
    lookupD (setKey m k v) k' d = if k' = k then v else lookupD m k' d := by
  by_cases hk : k' = k
  · subst hk
    rw [lookupD, lookupP_setKey_self]
    simp
  · rw [lookupD, lookupP_setKey_ne m k k' v hk, if_neg hk, lookupD]

theorem key0Chars_inj {e₁ e₂ : Int} {t₁ t₂ : Nat} {s₁ s₂ : Int}
    (h : key0Chars e₁ t₁ s₁ = key0Chars e₂ t₂ s₂) :
    e₁ = e₂ ∧ t₁ = t₂ ∧ (t₁ = 1 → s₁ = s₂) := by
  rw [key0Chars, key0Chars] at h
  obtain ⟨h1, h2⟩ := split_first_uscore _ (uscore_not_mem_intChars e₁)
    (uscore_not_mem_intChars e₂) h
  obtain ⟨h3, h4⟩ := split_first_uscore _ (uscore_not_mem_digitsOf t₁)
    (uscore_not_mem_digitsOf t₂) h2
  have ht : t₁ = t₂ := digitsOf_inj h3
  subst ht
  refine ⟨intChars_inj h1, rfl, ?_⟩
  intro h1t
  simp only [h1t, if_true, List.cons.injEq, true_and] at h4
  exact intChars_inj h4

theorem key1Chars_inj {e₁ e₂ : Int} {t₁ t₂ : Nat} {s₁ s₂ : Int}
    (h : key1Chars e₁ t₁ s₁ = key1Chars e₂ t₂ s₂) :
    e₁ = e₂ ∧ t₁ = t₂ ∧ (t₁ = 1 → s₁ = s₂) := by
  rw [key1Chars, key1Chars] at h
  obtain ⟨h1, h2⟩ := split_first_uscore _ (uscore_not_mem_intChars e₁)
    (uscore_not_mem_intChars e₂) h
  obtain ⟨h3, h4⟩ := split_first_uscore _ (uscore_not_mem_digitsOf t₁)
    (uscore_not_mem_digitsOf t₂) h2
  have ht : t₁ = t₂ := digitsOf_inj h3
  subst ht
  refine ⟨intChars_inj h1, rfl, ?_⟩
  intro h1t
  simp only [h1t, if_true, List.cons.injEq, true_and] at h4
  exact intChars_inj h4

theorem key0Chars_ne_key1Chars (e₁ e₂ : Int) (t₁ t₂ : Nat) (s₁ s₂ : Int) :
    key0Chars e₁ t₁ s₁ ≠ key1Chars e₂ t₂ s₂ := by
  intro h
  rw [key0Chars, key1Chars] at h
  obtain ⟨h1, h2⟩ := split_first_uscore _ (uscore_not_mem_intChars e₁)
    (uscore_not_mem_intChars e₂) h
  obtain ⟨h3, h4⟩ := split_first_uscore _ (uscore_not_mem_digitsOf t₁)
    (uscore_not_mem_digitsOf t₂) h2
  simp at h4

theorem key0_inj {e₁ e₂ : Int} {t₁ t₂ : Nat} {s₁ s₂ : Int}
    (h : key0 e₁ t₁ s₁ = key0 e₂ t₂ s₂) :
    e₁ = e₂ ∧ t₁ = t₂ ∧ (t₁ = 1 → s₁ = s₂) := by
  rw [key0, key0] at h
  exact key0Chars_inj (by injection h)

theorem key1_inj {e₁ e₂ : Int} {t₁ t₂ : Nat} {s₁ s₂ : Int}
    (h : key1 e₁ t₁ s₁ = key1 e₂ t₂ s₂) :
    e₁ = e₂ ∧ t₁ = t₂ ∧ (t₁ = 1 → s₁ = s₂) := by
  rw [key1, key1] at h
  exact key1Chars_inj (by injection h)

theorem key0_ne_key1 (e₁ e₂ : Int) (t₁ t₂ : Nat) (s₁ s₂ : Int) :
    key0 e₁ t₁ s₁ ≠ key1 e₂ t₂ s₂ := by
  intro h
  rw [key0, key1] at h
  exact key0Chars_ne_key1Chars e₁ e₂ t₁ t₂ s₁ s₂ (by injection h)

/-! ### Correctness of the bisection search -/

theorem bisectLeftAux_spec (l : List (Int × Bool)) (x : Int × Bool)
    (hmono : ∀ i j : Nat, i ≤ j → j < l.length →
      pairLtB (l.getD j (0, false)) x = true → pairLtB (l.getD i (0, false)) x = true) :
    ∀ n lo hi, hi - lo ≤ n → lo ≤ hi → hi ≤ l.length →
      (∀ j, j < lo → pairLtB (l.getD j (0, false)) x = true) →
      (∀ j, hi ≤ j → j < l.length → ¬ pairLtB (l.getD j (0, false)) x = true) →
      lo ≤ bisectLeftAux l x n lo hi ∧ bisectLeftAux l x n lo hi ≤ hi ∧
      (∀ j, j < bisectLeftAux l x n lo hi → pairLtB (l.getD j (0, false)) x = true) ∧
      (∀ j, bisectLeftAux l x n lo hi ≤ j → j < l.length →
        ¬ pairLtB (l.getD j (0, false)) x = true) := by
  intro n
  induction n with
  | zero =>
    intro lo hi hn hle hhi hlow hup
    have hlohi : lo = hi := by omega
    rw [bisectLeftAux]
    exact ⟨le_refl _, by omega, hlow, fun j hj hjl => hup j (by omega) hjl⟩
  | succ n ih =>
    intro lo hi hn hle hhi hlow hup
    by_cases hlt : lo < hi
    · rw [bisectLeftAux, if_pos hlt]
      by_cases hP : pairLtB (l.getD ((lo + hi) / 2) (0, false)) x = true
      · rw [if_pos hP]
        have hmidlt : (lo + hi) / 2 < hi := by omega
        have hlow' : ∀ j, j < (lo + hi) / 2 + 1 →
            pairLtB (l.getD j (0, false)) x = true := by
          intro j hj
          exact hmono j ((lo + hi) / 2) (by omega) (by omega) hP
        obtain ⟨r1, r2, r3, r4⟩ :=
          ih ((lo + hi) / 2 + 1) hi (by omega) (by omega) hhi hlow' hup
        exact ⟨by omega, r2, r3, r4⟩
      · rw [if_neg hP]
        have hmidlt : (lo + hi) / 2 < hi := by omega
        have hup' : ∀ j, (lo + hi) / 2 ≤ j → j < l.length →
            ¬ pairLtB (l.getD j (0, false)) x = true := by
          intro j hj hjl hPj
          exact hP (hmono ((lo + hi) / 2) j hj hjl hPj)
        obtain ⟨r1, r2, r3, r4⟩ :=
          ih lo ((lo + hi) / 2) (by omega) (by omega) (by omega) hlow hup'
        exact ⟨r1, by omega, r3, r4⟩
    · rw [bisectLeftAux, if_neg hlt]
      exact ⟨le_refl _, by omega, hlow, fun j hj hjl => hup j (by omega) hjl⟩

theorem pairLtB_target (a : Int × Bool) (t : Int) :
    pairLtB a (t, false) = decide (a.1 < t) := by
  rw [pairLtB]
  cases a.2 <;> simp

theorem bisect_left_spec (candles : List (Int × Bool)) (target : Int)
    (hsorted : candles.Pairwise (fun a b => a.1 < b.1)) :
    bisect_left candles (target, false) ≤ candles.length ∧
    (∀ j, j < bisect_left candles (target, false) →
      (candles.getD j (0, false)).1 < target) ∧
    (∀ j, bisect_left candles (target, false) ≤ j → j < candles.length →
      ¬ (candles.getD j (0, false)).1 < target) := by
  have hget : ∀ (j : Nat) (h : j < candles.length),
      candles.getD j (0, false) = candles.get ⟨j, h⟩ := by
    intro j h
    rw [List.getD_eq_getElem?_getD, List.getElem?_eq_getElem h]
    rfl
  have hpw := List.pairwise_iff_get.mp hsorted
  have hmono : ∀ i j : Nat, i ≤ j → j < candles.length →
      pairLtB (candles.getD j (0, false)) (target, false) = true →
      pairLtB (candles.getD i (0, false)) (target, false) = true := by
    intro i j hij hj hPj
    rw [pairLtB_target] at hPj ⊢
    simp only [decide_eq_true_eq] at hPj ⊢
    rcases Nat.lt_or_ge i j with hij' | hij'
    · have hlt := hpw ⟨i, by omega⟩ ⟨j, hj⟩ hij'
      rw [hget i (by omega)]
      rw [hget j hj] at hPj
      exact lt_trans hlt hPj
    · have : i = j := by omega
      subst this
      exact hPj
  have hspec := bisectLeftAux_spec candles (target, false) hmono candles.length 0
    candles.length (by omega) (by omega) (le_refl _)
    (fun j hj => absurd hj (Nat.not_lt.mpr (Nat.zero_le j)))
    (fun j h1 h2 => absurd (Nat.lt_of_le_of_lt h1 h2) (lt_irrefl _))
  rw [bisect_left]
  refine ⟨hspec.2.1, ?_, ?_⟩
  · intro j hj
    have := hspec.2.2.1 j hj
    rw [pairLtB_target] at this
    simpa using this
  · intro j hj hjl hlt
    have := hspec.2.2.2 j hj hjl
    rw [pairLtB_target] at this
    simp only [decide_eq_true_eq] at this
    exact this hlt

/-- C7: for every candle sequence ordered by strictly increasing timestamp and
every target timestamp, `find_prev_candle_trend` returns the candle with the
greatest timestamp strictly less than the target, and returns `none` exactly
when no candle timestamp is strictly less than the target. -/
theorem C7_trend_locator (candles : List (Int × Bool)) (target : Int)
    (hsorted : candles.Pairwise (fun a b => a.1 < b.1)) :
    (find_prev_candle_trend candles target = none ↔ ∀ c ∈ candles, ¬ c.1 < target) ∧
    (∀ c, find_prev_candle_trend candles target = some c →
      c ∈ candles ∧ c.1 < target ∧ ∀ c' ∈ candles, c'.1 < target → c'.1 ≤ c.1) := by
  have hget : ∀ (j : Nat) (h : j < candles.length),
      candles.getD j (0, false) = candles.get ⟨j, h⟩ := by
    intro j h
    rw [List.getD_eq_getElem?_getD, List.getElem?_eq_getElem h]
    rfl
  have hpw := List.pairwise_iff_get.mp hsorted
  obtain ⟨hlen, hlo, hhi⟩ := bisect_left_spec candles target hsorted
  rw [find_prev_candle_trend]
  by_cases hnil : candles = []
  · subst hnil
    simp
  · rw [if_neg hnil]
    have hlenpos : 0 < candles.length := List.length_pos.mpr hnil
    by_cases hpos : 0 < bisect_left candles (target, false)
    · rw [if_pos hpos]
      constructor
      · constructor
        · intro h
          exact (Option.some_ne_none _ h).elim
        · intro hall
          exfalso
          have h0 := hlo 0 hpos
          rw [hget 0 hlenpos] at h0
          exact hall _ (candles.get_mem 0 hlenpos) h0
      · intro c hc
        have hc' : c = candles.getD (bisect_left candles (target, false) - 1) (0, false) := by
          injection hc with h
          exact h.symm
        have hidx1 : bisect_left candles (target, false) - 1 < candles.length := by omega
        subst hc'
        refine ⟨?_, ?_, ?_⟩
        · rw [hget _ hidx1]
          exact candles.get_mem _ _
        · exact hlo _ (by omega)
        · intro c' hc' hlt'
          obtain ⟨⟨j, hj⟩, rfl⟩ := List.mem_iff_get.mp hc'
          have hjlt : j < bisect_left candles (target, false) := by
            by_contra hge
            exact hhi j (by omega) hj (by rw [hget j hj]; exact hlt')
          rcases Nat.lt_or_ge j (bisect_left candles (target, false) - 1) with hj' | hj'
          · have := hpw ⟨j, hj⟩ ⟨bisect_left candles (target, false) - 1, hidx1⟩ hj'
            rw [hget _ hidx1]
            exact le_of_lt this
          · have : j = bisect_left candles (target, false) - 1 := by omega
            subst this
            rw [hget _ hj]
    · rw [if_neg hpos]
      constructor
      · constructor
        · intro _ c hc
          obtain ⟨⟨j, hj⟩, rfl⟩ := List.mem_iff_get.mp hc
          have := hhi j (by omega) hj
          rw [hget j hj] at this
          exact this
        · intro _
          rfl
      · intro c hc
        exact (Option.noConfusion hc)

/-- Witness for C7 at a concrete sorted candle list. -/
theorem C7_witness :
    find_prev_candle_trend [((0 : Int), true), ((10 : Int), false)] 5 = none ↔
      ∀ c ∈ [((0 : Int), true), ((10 : Int), false)], ¬ c.1 < 5 :=
  (C7_trend_locator [((0 : Int), true), ((10 : Int), false)] 5 (by decide)).1

theorem writesFoldl_nil (m : List (String × ℚ)) : writesFoldl [] m = m := rfl

theorem writesFoldl_cons (w : String × ℚ) (ws : List (String × ℚ))
    (m : List (String × ℚ)) :
    writesFoldl (w :: ws) m = writesFoldl ws (setKey m w.1 w.2) := rfl

theorem writesFoldl_append (a b : List (String × ℚ)) (m : List (String × ℚ)) :
    writesFoldl (a ++ b) m = writesFoldl b (writesFoldl a m) := by
  rw [writesFoldl, writesFoldl, writesFoldl, List.foldl_append]

theorem lookupP_writesFoldl_skip :
    ∀ (ws : List (String × ℚ)) (m : List (String × ℚ)) (k : String),
      (∀ v, (k, v) ∉ ws) → lookupP (writesFoldl ws m) k = lookupP m k := by
  intro ws
  induction ws with
  | nil => intro m k _; rfl
  | cons w rest ih =>
    intro m k h
    rw [writesFoldl_cons]
    have hw : k ≠ w.1 := by
      intro he
      exact h w.2 (by rw [he]; exact List.mem_cons_self _ _)
    rw [ih _ k (fun v hv => h v (List.mem_cons_of_mem _ hv))]
    exact lookupP_setKey_ne m w.1 k w.2 hw

theorem lookupP_writesFoldl_last :
    ∀ (ws : List (String × ℚ)) (m : List (String × ℚ)) (k : String) (v : ℚ),
      (k, v) ∈ ws → (∀ v', (k, v') ∈ ws → v' = v) →
      lookupP (writesFoldl ws m) k = some v := by
  intro ws
  induction ws with
  | nil =>
    intro m k v h _
    simp at h
  | cons w rest ih =>
    intro m k v hmem huniq
    rw [writesFoldl_cons]
    by_cases hrest : ∃ v', (k, v') ∈ rest
    · obtain ⟨v', hv'⟩ := hrest
      have hveq : v' = v := huniq v' (List.mem_cons_of_mem _ hv')
      subst hveq
      exact ih _ k v' hv' (fun v'' hv'' => huniq v'' (List.mem_cons_of_mem _ hv''))
    · push_neg at hrest
      have hw : w = (k, v) := by
        rcases List.mem_cons.mp hmem with h | h
        · exact h.symm
        · exact absurd h (hrest v)
      subst hw
      rw [lookupP_writesFoldl_skip rest _ k (fun v' hv' => hrest v' hv')]
      exact lookupP_setKey_self m k v

theorem processTriple_eq_writes (s : GlobalState) (day target : Int)
    (ramRates : List (Int × ℚ)) (ramExt : List Int × List Int)
    (prevCandle : Option (Int × Bool)) (modification : ℚ)
    (m : List (String × ℚ)) (tr : Occ × Int × Nat) :
    processTriple s day target ramRates ramExt prevCandle modification m tr =
      writesFoldl (tripleWrites s day target ramRates ramExt prevCandle modification tr) m := by
  rw [processTriple, tripleWrites]
  by_cases hv : validDates s target tr.1.EventId = []
  · rw [if_pos hv, if_pos hv, writesFoldl_nil]
  · rw [if_neg hv, if_neg hv]
    cases prevCandle with
    | none => rfl
    | some pc =>
      simp only []
      by_cases ht : 0 < (validDates s target tr.1.EventId).length
      · rw [if_pos ht, if_pos ht, writesFoldl_append]
        rfl
      · rw [if_neg ht, if_neg ht]
        rfl

theorem foldl_processTriple_eq_writes (s : GlobalState) (day target : Int)
    (ramRates : List (Int × ℚ)) (ramExt : List Int × List Int)
    (prevCandle : Option (Int × Bool)) (modification : ℚ) :
    ∀ (needed : List (Occ × Int × Nat)) (m : List (String × ℚ)),
      needed.foldl (processTriple s day target ramRates ramExt prevCandle modification) m =
        writesFoldl
          (needed.flatMap (tripleWrites s day target ramRates ramExt prevCandle modification)) m := by
  intro needed
  induction needed with
  | nil => intro m; rfl
  | cons tr rest ih =>
    intro m
    rw [List.foldl_cons, List.flatMap_cons, writesFoldl_append, ih,
      processTriple_eq_writes]

theorem calcResultRaw_eq_writes (s : GlobalState) (pair day target : Int) :
    calcResultRaw s pair day target = writesFoldl (allWrites s pair day target) [] := by
  rw [calcResultRaw, allWrites]
  by_cases hn : neededEvents s day target = []
  · rw [if_pos hn, hn]
    rfl
  · rw [if_neg hn]
    exact foldl_processTriple_eq_writes _ _ _ _ _ _ _ _ []

theorem tripleWrites_eq_nil {s : GlobalState} {day target : Int}
    {rr : List (Int × ℚ)} {re : List Int × List Int} {pc : Option (Int × Bool)}
    {mo : ℚ} {e : Occ} {sh : Int} {t : Nat}
    (hv : validDates s target e.EventId = []) :
    tripleWrites s day target rr re pc mo (e, sh, t) = [] := by
  rw [tripleWrites, if_pos hv]

theorem mem_tripleWrites_elim {s : GlobalState} {day target : Int}
    {rr : List (Int × ℚ)} {re : List Int × List Int} {pc : Option (Int × Bool)}
    {mo : ℚ} {e : Occ} {sh : Int} {t : Nat} {k : String} {v : ℚ}
    (h : (k, v) ∈ tripleWrites s day target rr re pc mo (e, sh, t)) :
    validDates s target e.EventId ≠ [] ∧
    ((k = key0 e.EventId t sh ∧ v = mode0Val s day target rr e.EventId sh) ∨
     (∃ pc', pc = some pc' ∧ k = key1 e.EventId t sh ∧
       v = mode1Val s day target re mo pc'.2 e.EventId sh)) := by
  rw [tripleWrites] at h
  by_cases hv : validDates s target e.EventId = []
  · rw [if_pos hv] at h
    simp at h
  · rw [if_neg hv] at h
    refine ⟨hv, ?_⟩
    cases pc with
    | none =>
      simp only [List.mem_singleton, Prod.mk.injEq] at h
      exact Or.inl ⟨h.1, by rw [h.2, mode0Val]⟩
    | some pc' =>
      simp only [] at h
      by_cases h0 : 0 < (validDates s target e.EventId).length
      · rw [if_pos h0] at h
        rcases List.mem_append.mp h with h' | h'
        · simp only [List.mem_singleton, Prod.mk.injEq] at h'
          exact Or.inl ⟨h'.1, by rw [h'.2, mode0Val]⟩
        · simp only [List.mem_singleton, Prod.mk.injEq] at h'
          exact Or.inr ⟨pc', rfl, h'.1, by rw [h'.2, mode1Val]⟩
      · rw [if_neg h0] at h
        simp only [List.mem_singleton, Prod.mk.injEq] at h
        exact Or.inl ⟨h.1, by rw [h.2, mode0Val]⟩

theorem tripleWrites_key0_mem {s : GlobalState} {day target : Int}
    {rr : List (Int × ℚ)} {re : List Int × List Int} {pc : Option (Int × Bool)}
    {mo : ℚ} {e : Occ} {sh : Int} {t : Nat}
    (hv : validDates s target e.EventId ≠ []) :
    (key0 e.EventId t sh, mode0Val s day target rr e.EventId sh) ∈
      tripleWrites s day target rr re pc mo (e, sh, t) := by
  rw [tripleWrites, if_neg hv]
  cases pc with
  | none => simp [mode0Val]
  | some pc' =>
    simp only []
    have h0 : 0 < (validDates s target e.EventId).length := List.length_pos.mpr hv
    rw [if_pos h0]
    exact List.mem_append.mpr (Or.inl (by simp [mode0Val]))

theorem tripleWrites_key1_mem {s : GlobalState} {day target : Int}
    {rr : List (Int × ℚ)} {re : List Int × List Int} {pc' : Int × Bool}
    {mo : ℚ} {e : Occ} {sh : Int} {t : Nat}
    (hv : validDates s target e.EventId ≠ []) :
    (key1 e.EventId t sh, mode1Val s day target re mo pc'.2 e.EventId sh) ∈
      tripleWrites s day target rr re (some pc') mo (e, sh, t) := by
  rw [tripleWrites, if_neg hv]
  simp only []
  have h0 : 0 < (validDates s target e.EventId).length := List.length_pos.mpr hv
  rw [if_pos h0]
  exact List.mem_append.mpr (Or.inr (by simp [mode1Val]))

theorem lookupP_mem {α β : Type} [DecidableEq α] :
    ∀ {m : List (α × β)} {k : α} {v : β}, lookupP m k = some v →
      ∃ p ∈ m, p.1 = k ∧ p.2 = v := by
  intro m
  induction m with
  | nil => intro k v h; simp [lookupP] at h
  | cons p rest ih =>
    intro k v h
    rw [lookupP] at h
    by_cases hp : p.1 = k
    · rw [if_pos hp] at h
      exact ⟨p, List.mem_cons_self _ _, hp, Option.some.inj h⟩
    · rw [if_neg hp] at h
      obtain ⟨q, hq, hq1, hq2⟩ := ih h
      exact ⟨q, List.mem_cons_of_mem _ hq, hq1, hq2⟩

theorem typeGet_zero_or_one {s : GlobalState}
    (hty : ∀ p ∈ s.eventTypes, p.2 = 0 ∨ p.2 = 1) (eid : Int) :
    typeGet s eid = 0 ∨ typeGet s eid = 1 := by
  rw [typeGet, lookupD]
  cases hl : lookupP s.eventTypes eid with
  | none => simp
  | some v =>
    obtain ⟨p, hp, _, hv⟩ := lookupP_mem hl
    simpa [← hv] using hty p hp

theorem mem_neededEvents_elim {s : GlobalState} {day target : Int}
    {e : Occ} {sh : Int} {t : Nat} (h : (e, sh, t) ∈ neededEvents s day target) :
    e ∈ eventsInWindow s day target ∧ sh = shiftOf day target e.event_date ∧
    t = typeGet s e.EventId ∧ ¬ ((t = 0 ∧ sh ≠ 0) ∨ (t = 1 ∧ 12 < |sh|)) := by
  rw [neededEvents] at h
  obtain ⟨a, ha, hfa⟩ := List.mem_filterMap.mp h
  simp only [] at hfa
  by_cases hg : (typeGet s a.EventId = 0 ∧ shiftOf day target a.event_date ≠ 0) ∨
      (typeGet s a.EventId = 1 ∧ 12 < |shiftOf day target a.event_date|)
  · rw [if_pos hg] at hfa
    exact absurd hfa (by simp)
  · rw [if_neg hg] at hfa
    have h1 : a = e ∧ shiftOf day target a.event_date = sh ∧ typeGet s a.EventId = t := by
      injection hfa with h'
      obtain ⟨ha1, ha2⟩ := Prod.mk.injEq .. ▸ h'
      obtain ⟨hb1, hb2⟩ := Prod.mk.injEq .. ▸ ha2
      exact ⟨ha1, hb1, hb2⟩
    obtain ⟨rfl, h2, h3⟩ := h1
    subst h2
    subst h3
    exact ⟨ha, rfl, rfl, hg⟩

theorem triple_shift_eq {s : GlobalState}
    (hty : ∀ p ∈ s.eventTypes, p.2 = 0 ∨ p.2 = 1) {day target : Int}
    {e e' : Occ} {sh sh' : Int} {t t' : Nat}
    (hmem : (e, sh, t) ∈ neededEvents s day target)
    (hmem' : (e', sh', t') ∈ neededEvents s day target)
    (_heid : e.EventId = e'.EventId) (ht : t = t') (hs1 : t = 1 → sh = sh') :
    sh = sh' := by
  obtain ⟨_, _, htype, hguard⟩ := mem_neededEvents_elim hmem
  obtain ⟨_, _, htype', hguard'⟩ := mem_neededEvents_elim hmem'
  rcases typeGet_zero_or_one hty e.EventId with h0 | h1
  · have ht0 : t = 0 := by rw [htype, h0]
    have ht0' : t' = 0 := by rw [← ht, ht0]
    push_neg at hguard hguard'
    have hsh0 : sh = 0 := hguard.1 ht0
    have hsh0' : sh' = 0 := hguard'.1 ht0'
    rw [hsh0, hsh0']
  · exact hs1 (by rw [htype, h1])

theorem calcRaw_lookup_key0 (s : GlobalState)
    (hty : ∀ p ∈ s.eventTypes, p.2 = 0 ∨ p.2 = 1) (pair day target : Int)
    (e : Occ) (sh : Int) (t : Nat)
    (hmem : (e, sh, t) ∈ neededEvents s day target) :
    (validDates s target e.EventId = [] →
      lookupP (calcResultRaw s pair day target) (key0 e.EventId t sh) = none) ∧
    (validDates s target e.EventId ≠ [] →
      lookupP (calcResultRaw s pair day target) (key0 e.EventId t sh) =
        some (mode0Val s day target (ramRatesOf s pair day) e.EventId sh)) := by
  constructor
  · intro hv
    rw [calcResultRaw_eq_writes]
    rw [lookupP_writesFoldl_skip]
    · rfl
    · intro v hvmem
      obtain ⟨tr', htr', hw⟩ := List.mem_flatMap.mp hvmem
      obtain ⟨e', sh', t'⟩ := tr'
      obtain ⟨hvne', hcase⟩ := mem_tripleWrites_elim hw
      rcases hcase with ⟨hk, _⟩ | ⟨pc', _, hk, _⟩
      · obtain ⟨heid, _, _⟩ := key0_inj hk
        exact hvne' (heid ▸ hv)
      · exact key0_ne_key1 _ _ _ _ _ _ hk
  · intro hv
    rw [calcResultRaw_eq_writes]
    apply lookupP_writesFoldl_last
    · exact List.mem_flatMap.mpr ⟨(e, sh, t), hmem, tripleWrites_key0_mem hv⟩
    · intro v' hv'
      obtain ⟨tr', htr', hw⟩ := List.mem_flatMap.mp hv'
      obtain ⟨e', sh', t'⟩ := tr'
      obtain ⟨hvne', hcase⟩ := mem_tripleWrites_elim hw
      rcases hcase with ⟨hk, hval⟩ | ⟨pc', _, hk, _⟩
      · obtain ⟨heid, hts, hsh1⟩ := key0_inj hk
        have hsh : sh = sh' := triple_shift_eq hty hmem htr' heid hts hsh1
        rw [hval, ← heid, ← hsh]
      · exact absurd hk (key0_ne_key1 _ _ _ _ _ _)

theorem calcRaw_lookup_key1 (s : GlobalState)
    (hty : ∀ p ∈ s.eventTypes, p.2 = 0 ∨ p.2 = 1) (pair day target : Int)
    (e : Occ) (sh : Int) (t : Nat)
    (hmem : (e, sh, t) ∈ neededEvents s day target) :
    (prevCandleOf s pair day target = none →
      lookupP (calcResultRaw s pair day target) (key1 e.EventId t sh) = none) ∧
    (validDates s target e.EventId = [] →
      lookupP (calcResultRaw s pair day target) (key1 e.EventId t sh) = none) ∧
    (∀ pc', prevCandleOf s pair day target = some pc' →
      validDates s target e.EventId ≠ [] →
      lookupP (calcResultRaw s pair day target) (key1 e.EventId t sh) =
        some (mode1Val s day target (ramExtOf s pair day)
          (get_modification_factor pair) pc'.2 e.EventId sh)) := by
  refine ⟨?_, ?_, ?_⟩
  · intro hpc
    rw [calcResultRaw_eq_writes]
    rw [lookupP_writesFoldl_skip]
    · rfl
    · intro v hvmem
      obtain ⟨tr', htr', hw⟩ := List.mem_flatMap.mp hvmem
      obtain ⟨e', sh', t'⟩ := tr'
      obtain ⟨hvne', hcase⟩ := mem_tripleWrites_elim hw
      rcases hcase with ⟨hk, _⟩ | ⟨pc', hpc', hk, _⟩
      · exact key0_ne_key1 _ _ _ _ _ _ hk.symm
      · rw [hpc] at hpc'
        exact Option.noConfusion hpc'
  · intro hv
    rw [calcResultRaw_eq_writes]
    rw [lookupP_writesFoldl_skip]
    · rfl
    · intro v hvmem
      obtain ⟨tr', htr', hw⟩ := List.mem_flatMap.mp hvmem
      obtain ⟨e', sh', t'⟩ := tr'
      obtain ⟨hvne', hcase⟩ := mem_tripleWrites_elim hw
      rcases hcase with ⟨hk, _⟩ | ⟨pc', _, hk, _⟩
      · exact key0_ne_key1 _ _ _ _ _ _ hk.symm
      · obtain ⟨heid, _, _⟩ := key1_inj hk
        exact hvne' (heid ▸ hv)
  · intro pc' hpc hv
    rw [calcResultRaw_eq_writes]
    apply lookupP_writesFoldl_last
    · have hmemw : (key1 e.EventId t sh,
          mode1Val s day target (ramExtOf s pair day) (get_modification_factor pair)
            pc'.2 e.EventId sh) ∈ allWrites s pair day target := by
        rw [allWrites, hpc]
        exact List.mem_flatMap.mpr ⟨(e, sh, t), hmem, tripleWrites_key1_mem hv⟩
      exact hmemw
    · intro v' hv'
      obtain ⟨tr', htr', hw⟩ := List.mem_flatMap.mp hv'
      obtain ⟨e', sh', t'⟩ := tr'
      obtain ⟨hvne', hcase⟩ := mem_tripleWrites_elim hw
      rcases hcase with ⟨hk, _⟩ | ⟨pc'', hpc'', hk, hval⟩
      · exact absurd hk.symm (key0_ne_key1 _ _ _ _ _ _)
      · obtain ⟨heid, hts, hsh1⟩ := key1_inj hk
        have hsh : sh = sh' := triple_shift_eq hty hmem htr' heid hts hsh1
        have hpceq : pc'' = pc' := by
          rw [hpc] at hpc''
          exact (Option.some.inj hpc'').symm
        rw [hval, ← heid, ← hsh, hpceq]

/-! ### Keys of the result dict are pairwise distinct -/

theorem keys_nodup_setKey {m : List (String × ℚ)} {k : String} {v : ℚ}
    (h : (m.map Prod.fst).Nodup) : ((setKey m k v).map Prod.fst).Nodup := by
  rw [setKey]
  split
  · have heq : (m.map (fun p => if p.1 = k then (k, v) else p)).map Prod.fst =
        m.map Prod.fst := by
      rw [List.map_map]
      apply List.map_congr_left
      intro p _
      by_cases hpk : p.1 = k
      · simp [hpk]
      · simp [hpk]
    rw [heq]
    exact h
  · rename_i hany
    rw [List.map_append]
    apply List.Nodup.append h (List.nodup_singleton k)
    intro a ha hb
    simp only [List.map_cons, List.map_nil, List.mem_singleton] at hb
    subst hb
    obtain ⟨p, hp, hpk⟩ := List.mem_map.mp ha
    have : hasKey m a = true := (hasKey_iff m a).mpr ⟨p, hp, hpk⟩
    simp [this] at hany

theorem keys_nodup_writesFoldl :
    ∀ (ws : List (String × ℚ)) (m : List (String × ℚ)),
      (m.map Prod.fst).Nodup → ((writesFoldl ws m).map Prod.fst).Nodup := by
  intro ws
  induction ws with
  | nil => intro m h; exact h
  | cons w rest ih =>
    intro m h
    rw [writesFoldl_cons]
    exact ih _ (keys_nodup_setKey h)

theorem calcRaw_keys_nodup (s : GlobalState) (pair day target : Int) :
    ((calcResultRaw s pair day target).map Prod.fst).Nodup := by
  rw [calcResultRaw_eq_writes]
  exact keys_nodup_writesFoldl _ [] (by simp)

theorem lookupP_eq_none {α β : Type} [DecidableEq α] :
    ∀ {m : List (α × β)} {k : α}, (∀ p ∈ m, p.1 ≠ k) → lookupP m k = none := by
  intro m
  induction m with
  | nil => intro _ _; rfl
  | cons p rest ih =>
    intro k h
    rw [lookupP, if_neg (h p (List.mem_cons_self _ _))]
    exact ih (fun q hq => h q (List.mem_cons_of_mem _ hq))

/-- Lookup through the final comprehension
`{k: round(v, 6) for k, v in result.items() if v != 0}` (line 268), given the
result dict has pairwise distinct keys. -/
theorem lookupP_roundFilter :
    ∀ (m : List (String × ℚ)), (m.map Prod.fst).Nodup → ∀ k : String,
      lookupP ((m.filter (fun p => decide (p.2 ≠ 0))).map
          (fun p => (p.1, round6 p.2))) k =
        (lookupP m k).bind (fun v => if v = 0 then none else some (round6 v)) := by
  intro m
  induction m with
  | nil => intro _ k; rfl
  | cons p rest ih =>
    intro hnd k
    rw [List.map_cons, List.nodup_cons] at hnd
    obtain ⟨hpni, hndr⟩ := hnd
    by_cases hz : p.2 = 0
    · have hfz : (decide (p.2 ≠ 0)) = false := by simp [hz]
      rw [List.filter_cons, hfz]
      simp only [Bool.false_eq_true, if_false]
      by_cases hpk : p.1 = k
      · have hlhs : lookupP ((rest.filter (fun p => decide (p.2 ≠ 0))).map
            (fun p => (p.1, round6 p.2))) k = none := by
          apply lookupP_eq_none
          intro q hq
          obtain ⟨q', hq', rfl⟩ := List.mem_map.mp hq
          have hq'm : q' ∈ rest := List.mem_of_mem_filter hq'
          intro hqk
          have hqk' : q'.1 = k := hqk
          apply hpni
          rw [hpk, ← hqk']
          exact List.mem_map_of_mem Prod.fst hq'm
        rw [hlhs, lookupP, if_pos hpk]
        simp [hz]
      · rw [ih hndr k, lookupP, if_neg hpk]
    · have hfz : (decide (p.2 ≠ 0)) = true := by simp [hz]
      rw [List.filter_cons, hfz]
      simp only [if_true]
      rw [List.map_cons, lookupP, lookupP]
      by_cases hpk : p.1 = k
      · simp only [hpk, if_true]
        simp [hz]
      · simp only [hpk, if_false]
        exact ih hndr k

/-- C2 (corrected): a key is present in the `/values` output iff the raw
computed value under it is nonzero (the filter tests the exact value, not the
rounded one), and the output value is the raw value rounded to 6 decimals —
which can itself be 0 when the raw value is tiny but nonzero. -/
theorem C2_output_rounding (s : GlobalState) (pair day target : Int) (k : String) :
    lookupP (calculate_pure_memory s pair day target) k =
      (lookupP (calcResultRaw s pair day target) k).bind
        (fun v => if v = 0 then none else some (round6 v)) := by
  rw [calculate_pure_memory]
  exact lookupP_roundFilter _ (calcRaw_keys_nodup s pair day target) k

/-- C1 counterexample: the claim "a non-coincident candidate survives only if
its importance is 1" is false — in `sC1`, the importance-2 occurrence one hour
after the target survives the filter (line 228 keeps `Importance != 1`). -/
theorem C1_counterexample :
    ¬ (∀ e ∈ eventsInWindow sC1 0 0, e.event_date ≠ 0 → e.Importance = 1) := by
  intro h
  have hmem : (⟨5, 2, 3600⟩ : Occ) ∈ eventsInWindow sC1 0 0 := by decide
  have h2 := h _ hmem (by decide)
  exact absurd h2 (by decide)

/-- C1 (amended): for a well-formed calendar (each occurrence stored under its
own timestamp), a candidate survives the window filter iff its timestamp is
one of the 25 checked offsets and its importance is NOT the top tier
(`Importance != 1`) — except that an occurrence exactly at the target is always
kept regardless of importance. -/
theorem C1_importance_filter (s : GlobalState)
    (hwf : ∀ p ∈ s.calendar, ∀ e ∈ p.2, e.event_date = p.1)
    (day target : Int) (e : Occ) :
    e ∈ eventsInWindow s day target ↔
      (e.event_date ∈ checkDates day target ∧ e ∈ calGet s e.event_date ∧
        (e.Importance ≠ 1 ∨ e.event_date = target)) := by
  have hdate : ∀ dt, e ∈ calGet s dt → e.event_date = dt := by
    intro dt he
    rw [calGet, lookupD] at he
    cases hl : lookupP s.calendar dt with
    | none => rw [hl] at he; simp at he
    | some l =>
      rw [hl] at he
      obtain ⟨p, hp, hpk, hpv⟩ := lookupP_mem hl
      rw [← hpk]
      exact hwf p hp e (by rw [hpv]; exact he)
  rw [eventsInWindow]
  constructor
  · intro h
    obtain ⟨dt, hdt, hf⟩ := List.mem_flatMap.mp h
    obtain ⟨hcal, hcond⟩ := List.mem_filter.mp hf
    have hed : e.event_date = dt := hdate dt hcal
    subst hed
    refine ⟨hdt, hcal, ?_⟩
    simpa using hcond
  · intro ⟨hdt, hcal, hcond⟩
    refine List.mem_flatMap.mpr ⟨e.event_date, hdt, List.mem_filter.mpr ⟨hcal, ?_⟩⟩
    simpa using hcond

/-- Witness for C1 at the concrete snapshot `sC1`. -/
theorem C1_witness : (⟨5, 2, 3600⟩ : Occ) ∈ eventsInWindow sC1 0 0 :=
  (C1_importance_filter sC1 (by decide) 0 0 ⟨5, 2, 3600⟩).mpr (by decide)

/-- C2 counterexample: the output of `/values` can contain a key whose value
is exactly 0 — the filter at line 268 tests the unrounded value, so a raw
value of 1/2500000 (float 4e-7) survives and is then rounded to 0. -/
theorem C2_counterexample :
    lookupP (calculate_pure_memory sC2 1 0 0) (key0 7 0 0) = some 0 ∧
    ¬ (∀ k v, lookupP (calculate_pure_memory sC2 1 0 0) k = some v → v ≠ 0) := by
  have hnd := calcRaw_keys_nodup sC2 1 0 0
  have h0 := (calcRaw_lookup_key0 sC2 (by decide) 1 0 0 ⟨7, 1, 0⟩ 0 0 (by decide)).2
    (by decide)
  have hval : mode0Val sC2 0 0 (ramRatesOf sC2 1 0) 7 0 = 1 / 2500000 := by
    simp [mode0Val, validDates, histGet, ramRatesOf, get_rates_table_name,
      lookupD, lookupP, sC2, granUnit]
  have hfirst : lookupP (calculate_pure_memory sC2 1 0 0) (key0 7 0 0) = some 0 := by
    rw [calculate_pure_memory, lookupP_roundFilter _ hnd, h0, hval]
    norm_num [round6, roundHalfEven]
    intro h
    norm_num [Int.fract] at h
  exact ⟨hfirst, fun hall => hall _ 0 hfirst rfl⟩

/-- C4: a surviving triple whose event has no occurrence strictly before the
target contributes no key at all to the result dict; otherwise its mode-0
(magnitude) feature is the sum, over every historical occurrence `h` before
the target, of the rate at `h + shift` granularity units, an absent rate
contributing 0 to the sum. -/
theorem C4_mode0_magnitude (s : GlobalState)
    (hty : ∀ p ∈ s.eventTypes, p.2 = 0 ∨ p.2 = 1) (pair day target : Int)
    (e : Occ) (sh : Int) (t : Nat)
    (hmem : (e, sh, t) ∈ neededEvents s day target) :
    (validDates s target e.EventId = [] →
      lookupP (calcResultRaw s pair day target) (key0 e.EventId t sh) = none ∧
      lookupP (calcResultRaw s pair day target) (key1 e.EventId t sh) = none) ∧
    (validDates s target e.EventId ≠ [] →
      lookupP (calcResultRaw s pair day target) (key0 e.EventId t sh) =
        some (((validDates s target e.EventId).map
          (fun h => lookupD (ramRatesOf s pair day) (h + granUnit day * sh) 0)).sum)) := by
  constructor
  · intro hv
    exact ⟨(calcRaw_lookup_key0 s hty pair day target e sh t hmem).1 hv,
      (calcRaw_lookup_key1 s hty pair day target e sh t hmem).2.1 hv⟩
  · intro hv
    rw [(calcRaw_lookup_key0 s hty pair day target e sh t hmem).2 hv, mode0Val,
      List.map_map]
    rfl

/-- Witness for C4 at the concrete snapshot `sW` (event 7, shift −1). -/
theorem C4_witness :
    lookupP (calcResultRaw sW 1 0 0) (key0 7 1 (-1)) =
      some (((validDates sW 0 7).map
        (fun h => lookupD (ramRatesOf sW 1 0) (h + granUnit 0 * (-1)) 0)).sum) :=
  (C4_mode0_magnitude sW (by decide) 1 0 0 ⟨7, 5, 3600⟩ (-1) 1 (by decide)).2 (by decide)

/-- C5: the mode-1 (trend-alignment) feature of a surviving triple equals
`((matches / total) * 2 - 1) * modification` with the extremum set selected by
the prior candle's direction (max-set if bullish, min-set otherwise); the key
is absent whenever no prior candle exists or the event has no history before
the target, and whenever the value is computed the denominator `total` is
positive, so the guarded zero-division branch is never reached. -/
theorem C5_mode1_trend (s : GlobalState)
    (hty : ∀ p ∈ s.eventTypes, p.2 = 0 ∨ p.2 = 1) (pair day target : Int)
    (e : Occ) (sh : Int) (t : Nat)
    (hmem : (e, sh, t) ∈ neededEvents s day target) :
    (prevCandleOf s pair day target = none →
      lookupP (calcResultRaw s pair day target) (key1 e.EventId t sh) = none) ∧
    (validDates s target e.EventId = [] →
      lookupP (calcResultRaw s pair day target) (key1 e.EventId t sh) = none) ∧
    (∀ ts bull, prevCandleOf s pair day target = some (ts, bull) →
      validDates s target e.EventId ≠ [] →
      0 < (validDates s target e.EventId).length ∧
      lookupP (calcResultRaw s pair day target) (key1 e.EventId t sh) =
        some (((((((validDates s target e.EventId).map
              (fun d => d + granUnit day * sh)).filter
                (fun d => decide (d ∈ (if bull then (ramExtOf s pair day).2
                  else (ramExtOf s pair day).1)))).length : ℚ) /
            ((validDates s target e.EventId).length : ℚ)) * 2 - 1) *
          get_modification_factor pair)) := by
  refine ⟨(calcRaw_lookup_key1 s hty pair day target e sh t hmem).1,
    (calcRaw_lookup_key1 s hty pair day target e sh t hmem).2.1, ?_⟩
  intro ts bull hpc hv
  refine ⟨List.length_pos.mpr hv, ?_⟩
  rw [(calcRaw_lookup_key1 s hty pair day target e sh t hmem).2.2 (ts, bull) hpc hv,
    mode1Val]

/-- Witness for C5 at the concrete snapshot `sW` (bullish prior candle). -/
theorem C5_witness :
    0 < (validDates sW 0 7).length ∧
    lookupP (calcResultRaw sW 1 0 0) (key1 7 1 (-1)) =
      some (((((((validDates sW 0 7).map (fun d => d + granUnit 0 * (-1))).filter
            (fun d => decide (d ∈ (if true then (ramExtOf sW 1 0).2
              else (ramExtOf sW 1 0).1)))).length : ℚ) /
          ((validDates sW 0 7).length : ℚ)) * 2 - 1) *
        get_modification_factor 1) :=
  (C5_mode1_trend sW (by decide) 1 0 0 ⟨7, 5, 3600⟩ (-1) 1 (by decide)).2.2
    (-7200) true (by decide) (by decide)

/-- C6: every triple emitted by the event-window selector satisfies the type
guard — a type-0 event only ever appears with shift 0 and a type-1 event only
with |shift| ≤ 12. -/
theorem C6_type_shift_guard (s : GlobalState) (day target : Int)
    (e : Occ) (sh : Int) (t : Nat)
    (hmem : (e, sh, t) ∈ neededEvents s day target) :
    (t = 0 → sh = 0) ∧ (t = 1 → |sh| ≤ 12) := by
  obtain ⟨_, _, _, hguard⟩ := mem_neededEvents_elim hmem
  push_neg at hguard
  exact ⟨hguard.1, hguard.2⟩

/-- Witness for C6 at the concrete snapshot `sW`. -/
theorem C6_witness : ((1 : Nat) = 0 → (-1 : Int) = 0) ∧ ((1 : Nat) = 1 → |(-1 : Int)| ≤ 12) :=
  C6_type_shift_guard sW 0 0 ⟨7, 5, 3600⟩ (-1) 1 (by decide)

/-- C10: a surviving occurrence exactly `k` granularity units before the
target (hours when `day = 0`, days when `day = 1`) receives shift `+k` (one
after it, `−k`), and consequently its mode-0 sum samples the rate series at
each historical timestamp plus `k` units. -/
theorem C10_shift_mode0 (s : GlobalState)
    (hty : ∀ p ∈ s.eventTypes, p.2 = 0 ∨ p.2 = 1) (pair day target k : Int)
    (e : Occ) (sh : Int) (t : Nat)
    (hday : day = 0 ∨ day = 1)
    (hocc : e.event_date = target - k * granUnit day)
    (hmem : (e, sh, t) ∈ neededEvents s day target) :
    sh = k ∧
    (validDates s target e.EventId ≠ [] →
      lookupP (calcResultRaw s pair day target) (key0 e.EventId t sh) =
        some (((validDates s target e.EventId).map
          (fun h => lookupD (ramRatesOf s pair day) (h + granUnit day * k) 0)).sum)) := by
  have hsh : sh = k := by
    obtain ⟨_, hshift, _, _⟩ := mem_neededEvents_elim hmem
    rw [hshift, hocc, shiftOf]
    rcases hday with h0 | h1
    · subst h0
      rw [if_pos rfl]
      have : target - (target - k * granUnit 0) = k * 3600 := by
        simp [granUnit]
      rw [this]
      exact Int.mul_tdiv_cancel k (by norm_num)
    · subst h1
      rw [if_neg (by norm_num)]
      have : target - (target - k * granUnit 1) = k * 86400 := by
        simp [granUnit]
      rw [this]
      exact Int.mul_fdiv_cancel k (by norm_num)
  refine ⟨hsh, fun hv => ?_⟩
  rw [(calcRaw_lookup_key0 s hty pair day target e sh t hmem).2 hv, mode0Val,
    List.map_map, hsh]
  rfl

/-- Witness for C10 at the concrete snapshot `sW` (occurrence one hour after
the target, shift −1). -/
theorem C10_witness :
    lookupP (calcResultRaw sW 1 0 0) (key0 7 1 (-1)) =
      some (((validDates sW 0 7).map
        (fun h => lookupD (ramRatesOf sW 1 0) (h + granUnit 0 * (-1)) 0)).sum) :=
  (C10_shift_mode0 sW (by decide) 1 0 0 (-1) ⟨7, 5, 3600⟩ (-1) 1 (Or.inl rfl)
    (by decide) (by decide)).2 (by decide)

/-- C9: per parsed event, `generate_binary_matrix` emits exactly the two base
codes `{id}_{type}_0` and `{id}_{type}_1`, plus — only for type-1 events — the
codes `{id}_1_0_{h}` and `{id}_1_1_{h}` for every integer h in [−12, 12], and
nothing else: 52 codes for a type-1 event, 2 for a type-0 event. -/
theorem C9_code_space (events : List EventDef) (e : EventDef) (c : String)
    (_he : e ∈ events) :
    (c ∈ generate_binary_matrix events ↔ ∃ e' ∈ events, c ∈ eventCodes e') ∧
    (c ∈ eventCodes e ↔
      (c = intStr e.EventId ++ "_" ++ e.EventType ++ "_0" ∨
       c = intStr e.EventId ++ "_" ++ e.EventType ++ "_1" ∨
       (e.EventType = "1" ∧ ∃ h : Int, -12 ≤ h ∧ h ≤ 12 ∧
         (c = intStr e.EventId ++ "_" ++ e.EventType ++ "_0_" ++ intStr h ∨
          c = intStr e.EventId ++ "_" ++ e.EventType ++ "_1_" ++ intStr h)))) ∧
    ((eventCodes e).length = if e.EventType = "1" then 52 else 2) := by
  refine ⟨by rw [generate_binary_matrix]; exact List.mem_flatMap, ?_, ?_⟩
  · rw [eventCodes]
    by_cases hty : e.EventType = "1"
    · rw [if_pos hty]
      constructor
      · intro h
        rcases List.mem_append.mp h with h' | h'
        · rcases List.mem_cons.mp h' with h'' | h''
          · exact Or.inl h''
          · exact Or.inr (Or.inl (List.mem_singleton.mp h''))
        · obtain ⟨i, hi, hc⟩ := List.mem_flatMap.mp h'
          have hi25 : i < 25 := List.mem_range.mp hi
          refine Or.inr (Or.inr ⟨hty, (i : Int) - 12, by omega, by omega, ?_⟩)
          rcases List.mem_cons.mp hc with h'' | h''
          · exact Or.inl h''
          · exact Or.inr (List.mem_singleton.mp h'')
      · intro h
        rcases h with h' | h' | ⟨_, hh, h1, h2, h'⟩
        · apply List.mem_append.mpr
          left
          rw [h']
          exact List.mem_cons_self _ _
        · apply List.mem_append.mpr
          left
          rw [h']
          exact List.mem_cons_of_mem _ (List.mem_singleton.mpr rfl)
        · apply List.mem_append.mpr
          right
          apply List.mem_flatMap.mpr
          refine ⟨(hh + 12).toNat, List.mem_range.mpr (by omega), ?_⟩
          have heq : ((hh + 12).toNat : Int) - 12 = hh := by omega
          rw [heq]
          rcases h' with h'' | h''
          · rw [h'']
            exact List.mem_cons_self _ _
          · rw [h'']
            exact List.mem_cons_of_mem _ (List.mem_singleton.mpr rfl)
    · rw [if_neg hty]
      rw [List.append_nil]
      constructor
      · intro h
        rcases List.mem_cons.mp h with h' | h'
        · exact Or.inl h'
        · exact Or.inr (Or.inl (List.mem_singleton.mp h'))
      · intro h
        rcases h with h' | h' | ⟨hh, _⟩
        · rw [h']
          exact List.mem_cons_self _ _
        · rw [h']
          exact List.mem_cons_of_mem _ (List.mem_singleton.mpr rfl)
        · exact absurd hh hty
  · rw [eventCodes]
    by_cases hty : e.EventType = "1"
    · rw [if_pos hty, if_pos hty]
      rfl
    · rw [if_neg hty, if_neg hty]
      rfl

/-- Witness for C9 at a concrete type-1 event. -/
theorem C9_witness :
    (eventCodes ⟨1, "1"⟩).length = if ("1" : String) = "1" then 52 else 2 :=
  (C9_code_space [⟨1, "1"⟩] ⟨1, "1"⟩ "x" (by decide)).2.2

/-- C3 counterexample: a rebuild that fails right after its first mutation
group (the `GLOBAL_WEIGHT_CODES[:] = ...` assignment, before the next query's
`await`) leaves a state different from the pre-rebuild snapshot — the globals
are mutated in place, not swapped atomically on success. -/
theorem C3_counterexample : preloadUpTo fC3 1 sC3 ≠ sC3 := by decide

theorem mem_setKey_val {α β : Type} [DecidableEq α] {m : List (α × β)} {k : α}
    {v : β} {q : α × β} (hq : q ∈ setKey m k v) : q.2 = v ∨ q ∈ m := by
  rw [setKey] at hq
  split at hq
  · obtain ⟨p, hp, hpq⟩ := List.mem_map.mp hq
    by_cases hpk : p.1 = k
    · rw [if_pos hpk] at hpq
      exact Or.inl (by rw [← hpq])
    · rw [if_neg hpk] at hpq
      exact Or.inr (hpq ▸ hp)
  · rcases List.mem_append.mp hq with h | h
    · exact Or.inr h
    · rcases List.mem_singleton.mp h with rfl
      exact Or.inl rfl

/-- Every value `preload_all_data` ever stores in `GLOBAL_EVENT_TYPES` is
0 or 1 (`1 if cnt > 1 else 0`, line 120) — so the well-formedness hypothesis
of the per-triple theorems holds for every state a rebuild produces. -/
theorem buildEventTypes_values (rows : List (Int × Option Int)) :
    ∀ p ∈ buildEventTypes rows, p.2 = 0 ∨ p.2 = 1 := by
  rw [buildEventTypes]
  suffices h : ∀ (rows' : List (Int × Option Int)) (m : List (Int × Nat)),
      (∀ p ∈ m, p.2 = 0 ∨ p.2 = 1) →
      ∀ p ∈ rows'.foldl
        (fun m r => setKey m r.1 (if 1 < r.2.getD 0 then 1 else 0)) m,
        p.2 = 0 ∨ p.2 = 1 by
    exact h rows [] (by simp)
  intro rows'
  induction rows' with
  | nil => intro m hm; exact hm
  | cons r rest ih =>
    intro m hm
    rw [List.foldl_cons]
    apply ih
    intro p hp
    rcases mem_setKey_val hp with h | h
    · rw [h]
      split
      · exact Or.inr rfl
      · exact Or.inl rfl
    · exact hm p h

theorem get_rates_table_name_mem (pair day : Int) :
    get_rates_table_name pair day ∈ tableNames := by
  rw [get_rates_table_name, tableNames]
  split_ifs <;> decide

/-- States that agree on everything a request can observe produce identical
`/values` outputs: the feature computation reads the snapshot only through
the four global dicts and the three per-table dicts at the selected table. -/
theorem calculate_observablesEq (s s' : GlobalState) (h : observablesEq s s')
    (pair day target : Int) :
    calculate_pure_memory s pair day target =
      calculate_pure_memory s' pair day target := by
  obtain ⟨hw, he, hc, hh, hts⟩ := h
  obtain ⟨hr, hl, hx⟩ := hts (get_rates_table_name pair day)
    (get_rates_table_name_mem pair day)
  have hne : neededEvents s day target = neededEvents s' day target := by
    rw [neededEvents, neededEvents, eventsInWindow, eventsInWindow]
    simp only [calGet, typeGet, lookupD, hc, he]
  have hpt : ∀ (rr : List (Int × ℚ)) (re : List Int × List Int)
      (pc : Option (Int × Bool)) (mo : ℚ),
      processTriple s day target rr re pc mo =
        processTriple s' day target rr re pc mo := by
    intro rr re pc mo
    funext m tr
    simp only [processTriple, validDates, histGet, hh]
  rw [calculate_pure_memory, calculate_pure_memory]
  simp only [calcResultRaw, hne, hr, hl, hx, hpt]

theorem preload_weightCodes (f : Fetched) (s : GlobalState) :
    (preload_all_data f s).weightCodes = f.weightCodes := by
  simp [preload_all_data, preloadSteps, tableNames, tableSteps, stepWeightCodes,
    stepEventTypes, stepCalendarHistory, stepClearTable, stepFillTable,
    stepExtMin, stepExtMax]

theorem preload_eventTypes (f : Fetched) (s : GlobalState) :
    (preload_all_data f s).eventTypes = buildEventTypes f.eventTypeRows := by
  simp [preload_all_data, preloadSteps, tableNames, tableSteps, stepWeightCodes,
    stepEventTypes, stepCalendarHistory, stepClearTable, stepFillTable,
    stepExtMin, stepExtMax]

theorem preload_calendar (f : Fetched) (s : GlobalState) :
    (preload_all_data f s).calendar = buildCalendar f.calendarRows := by
  simp [preload_all_data, preloadSteps, tableNames, tableSteps, stepWeightCodes,
    stepEventTypes, stepCalendarHistory, stepClearTable, stepFillTable,
    stepExtMin, stepExtMax]

theorem preload_history (f : Fetched) (s : GlobalState) :
    (preload_all_data f s).history = buildHistory f.calendarRows := by
  simp [preload_all_data, preloadSteps, tableNames, tableSteps, stepWeightCodes,
    stepEventTypes, stepCalendarHistory, stepClearTable, stepFillTable,
    stepExtMin, stepExtMax]

theorem preload_rates_lookup (f : Fetched) (s : GlobalState) (name : String)
    (hn : name ∈ tableNames) :
    lookupD (preload_all_data f s).rates name [] =
      (lookupD f.tableData name emptyTableFetch).rates := by
  fin_cases hn <;>
    simp [preload_all_data, preloadSteps, tableNames, tableSteps, stepWeightCodes,
      stepEventTypes, stepCalendarHistory, stepClearTable, stepFillTable,
      stepExtMin, stepExtMax, lookupD_setKey]

theorem preload_lastCandles_lookup (f : Fetched) (s : GlobalState) (name : String)
    (hn : name ∈ tableNames) :
    lookupD (preload_all_data f s).lastCandles name [] =
      (lookupD f.tableData name emptyTableFetch).lastCandles := by
  fin_cases hn <;>
    simp [preload_all_data, preloadSteps, tableNames, tableSteps, stepWeightCodes,
      stepEventTypes, stepCalendarHistory, stepClearTable, stepFillTable,
      stepExtMin, stepExtMax, lookupD_setKey]

theorem preload_extremums_lookup (f : Fetched) (s : GlobalState) (name : String)
    (hn : name ∈ tableNames) :
    lookupD (preload_all_data f s).extremums name ([], []) =
      ((lookupD f.tableData name emptyTableFetch).extMin,
       (lookupD f.tableData name emptyTableFetch).extMax) := by
  fin_cases hn <;>
    simp [preload_all_data, preloadSteps, tableNames, tableSteps, stepWeightCodes,
      stepEventTypes, stepCalendarHistory, stepClearTable, stepFillTable,
      stepExtMin, stepExtMax, lookupD_setKey]

/-- C3 (amended): a rebuild failing before its first mutation leaves the state
unchanged (but a later failure may leave a partially-updated state, per the
counterexample); the background loop proceeds to the next scheduled attempt
unconditionally after any attempt, failed or not; and a completed rebuild
produces observable state depending only on the freshly fetched data — the
service self-heals on the next successful reload. -/
theorem C3_reload_resilience :
    (∀ (f : Fetched) (s : GlobalState), preloadUpTo f 0 s = s) ∧
    (∀ (a : Fetched × Nat) (rest : List (Fetched × Nat)) (s : GlobalState),
      background_reload_data (a :: rest) s =
        background_reload_data rest (applyAttempt s a)) ∧
    (∀ (f : Fetched) (s s' : GlobalState),
      observablesEq (preload_all_data f s) (preload_all_data f s')) ∧
    (∀ (f : Fetched) (s s' : GlobalState) (pair day target : Int),
      calculate_pure_memory (preload_all_data f s) pair day target =
        calculate_pure_memory (preload_all_data f s') pair day target) := by
  have hobs : ∀ (f : Fetched) (s s' : GlobalState),
      observablesEq (preload_all_data f s) (preload_all_data f s') := by
    intro f s s'
    refine ⟨?_, ?_, ?_, ?_, ?_⟩
    · rw [preload_weightCodes, preload_weightCodes]
    · rw [preload_eventTypes, preload_eventTypes]
    · rw [preload_calendar, preload_calendar]
    · rw [preload_history, preload_history]
    · intro name hn
      refine ⟨?_, ?_, ?_⟩
      · rw [preload_rates_lookup f s name hn, preload_rates_lookup f s' name hn]
      · rw [preload_lastCandles_lookup f s name hn,
          preload_lastCandles_lookup f s' name hn]
      · rw [preload_extremums_lookup f s name hn,
          preload_extremums_lookup f s' name hn]
  exact ⟨fun f s => rfl, fun a rest s => rfl, hobs,
    fun f s s' pair day target =>
      calculate_observablesEq _ _ (hobs f s s') pair day target⟩

/-- C8 counterexample: the state visible at the suspension point right after
the calendar/history mutation group (the `await` releasing the first database
connection) is neither the complete old snapshot nor the complete new one —
it mixes the new calendar with the old rate tables, because the rebuild
mutates the shared dicts in place instead of swapping a fully-built snapshot. -/
theorem C8_counterexample :
    ¬ (preloadUpTo fC8 3 sC8 = sC8 ∨
       preloadUpTo fC8 3 sC8 = preload_all_data fC8 sC8) := by decide

/-- C8 (amended): a concurrently scheduled request can observe intermediate
mixed states (one per completed mutation group, per the counterexample), but
the pairs written inside a single never-suspended group stay consistent: at
every suspension point the calendar and history dicts are observed together,
either both the old version or both the new one. -/
theorem C8_calendar_history_pair (f : Fetched) (s : GlobalState) (k : Nat) :
    ((preloadUpTo f k s).calendar = s.calendar ∧
      (preloadUpTo f k s).history = s.history) ∨
    ((preloadUpTo f k s).calendar = buildCalendar f.calendarRows ∧
      (preloadUpTo f k s).history = buildHistory f.calendarRows) := by
  have hstep : ∀ σ ∈ preloadSteps f, ∀ st : GlobalState,
      ((σ st).calendar = st.calendar ∧ (σ st).history = st.history) ∨
      ((σ st).calendar = buildCalendar f.calendarRows ∧
        (σ st).history = buildHistory f.calendarRows) := by
    intro σ hσ st
    rw [preloadSteps] at hσ
    rcases List.mem_append.mp hσ with h | h
    · rcases List.mem_cons.mp h with h' | h'
      · subst h'
        exact Or.inl ⟨rfl, rfl⟩
      rcases List.mem_cons.mp h' with h'' | h''
      · subst h''
        exact Or.inl ⟨rfl, rfl⟩
      rcases List.mem_cons.mp h'' with h3 | h3
      · subst h3
        exact Or.inr ⟨rfl, rfl⟩
      · simp at h3
    · obtain ⟨name, _, hmem⟩ := List.mem_flatMap.mp h
      rw [tableSteps] at hmem
      rcases List.mem_cons.mp hmem with h' | h'
      · subst h'
        exact Or.inl ⟨rfl, rfl⟩
      rcases List.mem_cons.mp h' with h'' | h''
      · subst h''
        exact Or.inl ⟨rfl, rfl⟩
      rcases List.mem_cons.mp h'' with h3 | h3
      · subst h3
        exact Or.inl ⟨rfl, rfl⟩
      rcases List.mem_cons.mp h3 with h4 | h4
      · subst h4
        exact Or.inl ⟨rfl, rfl⟩
      · simp at h4
  have hfold : ∀ (l : List (GlobalState → GlobalState)),
      (∀ σ ∈ l, ∀ st : GlobalState,
        ((σ st).calendar = st.calendar ∧ (σ st).history = st.history) ∨
        ((σ st).calendar = buildCalendar f.calendarRows ∧
          (σ st).history = buildHistory f.calendarRows)) →
      ∀ st : GlobalState,
        ((st.calendar = s.calendar ∧ st.history = s.history) ∨
          (st.calendar = buildCalendar f.calendarRows ∧
            st.history = buildHistory f.calendarRows)) →
        (((l.foldl (fun s σ => σ s) st).calendar = s.calendar ∧
            (l.foldl (fun s σ => σ s) st).history = s.history) ∨
          ((l.foldl (fun s σ => σ s) st).calendar = buildCalendar f.calendarRows ∧
            (l.foldl (fun s σ => σ s) st).history = buildHistory f.calendarRows)) := by
    intro l
    induction l with
    | nil => intro _ st hst; exact hst
    | cons σ rest ih =>
      intro hl st hst
      rw [List.foldl_cons]
      apply ih (fun τ hτ => hl τ (List.mem_cons_of_mem _ hτ))
      rcases hl σ (List.mem_cons_self _ _) st with ⟨hc, hh⟩ | ⟨hc, hh⟩
      · rcases hst with ⟨hc', hh'⟩ | ⟨hc', hh'⟩
        · exact Or.inl ⟨hc.trans hc', hh.trans hh'⟩
        · exact Or.inr ⟨hc.trans hc', hh.trans hh'⟩
      · exact Or.inr ⟨hc, hh⟩
  exact hfold ((preloadSteps f).take k)
    (fun σ hσ => hstep σ (List.mem_of_mem_take hσ)) s (Or.inl ⟨rfl, rfl⟩)

end BrainServices

